import Mathlib

/-!
Verification of the voice-bot front-desk automaton.

This file is a shallow embedding of the two source files of the repository:

* `app.py` — the stateless turn-based webhook flow: intent classification
  (`detect_intent`), reservation slot extraction (`extract_reservation`),
  the continuation codec (`encode_state` / `decode_state`, which is
  `json.dumps`/`json.loads` composed with UTF-8 and url-safe base64), and the
  Twilio request handlers (`handle`, `confirm_booking`, `transfer_to_staff`,
  `prompt_main_menu`, `prompt_reservation`, `say_and_back`).
* `app_api.py` — the realtime media-stream session loop
  (`handle_twilio_media`), modelled as a step function over parsed events.

External collaborators (the Gemini model, Deepgram, Twilio transport, gTTS)
are modelled as oracles: optional functions supplying the collaborator
response for a given input, with `none` standing for "not configured, or the
call raised" (the code catches every collaborator exception).

Python standard-library behaviour that the code relies on (`json`, `base64`,
`str.encode`/`bytes.decode`, `re.search`) is embedded as executable Lean
functions at the value types the program actually stores: flat JSON objects
with string keys and string/int values, byte lists, and character lists.
-/

/-! ## Character-level helpers

ASCII models of the Python predicates the code relies on: `str.lower`,
`\d`, `\s`, `\w`, `[A-Za-z ]`, `str.strip`, and substring containment
(the `in` operator on `str`). The source only ever matches ASCII keywords
and patterns, so the ASCII plane is the faithful scope.
-/

/-- ASCII lower-casing of one character (model of `str.lower` /
case folding under `re.I`; the keywords and patterns in the source are
all ASCII). -/
def lowCh (c : Char) : Char :=
  if 65 ≤ c.toNat ∧ c.toNat ≤ 90 then Char.ofNat (c.toNat + 32) else c

/-- Lower-case a character list. -/
def lowerL (s : List Char) : List Char := s.map lowCh

/-- ASCII decimal digit (model of `\d`). -/
def isDigitCh (c : Char) : Bool := 48 ≤ c.toNat && c.toNat ≤ 57

/-- Whitespace (model of `\s` and of the default `str.strip` set, ASCII plane:
space, tab, newline, carriage return, vertical tab, form feed). -/
def isWsCh (c : Char) : Bool :=
  c = ' ' || c = '\t' || c = '\n' || c = '\r' || c = '\x0b' || c = '\x0c'

/-- Word character (model of `\w`, ASCII plane: letters, digits, underscore). -/
def isWordCh (c : Char) : Bool :=
  (65 ≤ c.toNat && c.toNat ≤ 90) || (97 ≤ c.toNat && c.toNat ≤ 122) ||
  isDigitCh c || c = '_'

/-- Character class `[A-Za-z ]` from the name-capture pattern. -/
def isAlphaSpCh (c : Char) : Bool :=
  (65 ≤ c.toNat && c.toNat ≤ 90) || (97 ≤ c.toNat && c.toNat ≤ 122) || c = ' '

/-- `str.strip()`: drop whitespace from both ends. -/
def stripL (s : List Char) : List Char :=
  ((s.dropWhile isWsCh).reverse.dropWhile isWsCh).reverse

/-- Substring containment: model of Python `needle in hay` on `str`. -/
def containsSub (needle : List Char) : List Char → Bool
  | [] => needle.isEmpty
  | c :: tl => needle.isPrefixOf (c :: tl) || containsSub needle tl

/-- Numeric value of a digit run (model of `int()` applied to a `\d+` match). -/
def natFromDigs (ds : List Char) : Nat :=
  ds.foldl (fun a c => a * 10 + (c.toNat - 48)) 0

/-! ## Intent Classifier (`detect_intent`, app.py lines 198–230)

The ordered keyword rules are transcribed verbatim.  The optional Gemini
collaborator is an oracle argument: `gemOut = some t` means the external
model was configured and returned text `t` for this utterance; `none` means
it is not configured or the call raised (the code catches the exception and
falls through to `"unknown"`).
-/

/-- The ordered `(label, keywords)` rule list from `detect_intent`. -/
def intentRules : List (String × List String) :=
  [("reservation", ["book", "reservation", "table", "reserve"]),
   ("menu", ["menu", "food", "special", "dish", "vegan", "gluten"]),
   ("hours", ["hour", "open", "close", "timing", "time do you open"]),
   ("location", ["location", "address", "where are you", "directions"]),
   ("wifi", ["wifi", "wi fi", "internet", "password"]),
   ("human", ["human", "staff", "agent", "manager", "speak to"])]

/-- The fixed label list scanned (in order) over the collaborator response. -/
def intentLabels : List String :=
  ["reservation", "menu", "hours", "location", "wifi", "human"]

/-- `detect_intent(utterance)`: first keyword rule whose keyword set has a
substring match against the lower-cased utterance; on no match, scan the
collaborator response (lower-cased, stripped) for the first label occurring
as a substring; default `"unknown"`. -/
def detect_intent (gemOut : Option String) (utterance : String) : String :=
  let text := lowerL utterance.data
  match intentRules.find? (fun r => r.2.any (fun k => containsSub k.data text)) with
  | some r => r.1
  | none =>
    match gemOut with
    | some out =>
      let cand := lowerL (stripL out.data)
      match intentLabels.find? (fun lab => containsSub lab.data cand) with
      | some lab => lab
      | none => "unknown"
    | none => "unknown"

/-- C4: any utterance whose lower-cased text contains one of the reservation
keywords as a substring is classified `"reservation"`, whatever else it
contains and whatever the collaborator would have answered: the reservation
rule is the first entry of the hard-coded rule list. -/
theorem detect_intent_reservation_first (gemOut : Option String) (u : String)
    (h : containsSub "book".data (lowerL u.data) = true ∨
         containsSub "reservation".data (lowerL u.data) = true ∨
         containsSub "table".data (lowerL u.data) = true ∨
         containsSub "reserve".data (lowerL u.data) = true) :
    detect_intent gemOut u = "reservation" := by
  have hp : (fun r : String × List String =>
      r.2.any (fun k => containsSub k.data (lowerL u.data)))
      ("reservation", ["book", "reservation", "table", "reserve"]) = true := by
    simp only [List.any_cons, List.any_nil, Bool.or_eq_true, Bool.or_false]
    rcases h with h | h | h | h
    · exact Or.inl h
    · exact Or.inr (Or.inl h)
    · exact Or.inr (Or.inr (Or.inl h))
    · exact Or.inr (Or.inr (Or.inr h))
  have hfind : intentRules.find?
      (fun r => r.2.any (fun k => containsSub k.data (lowerL u.data)))
      = some ("reservation", ["book", "reservation", "table", "reserve"]) :=
    List.find?_cons_of_pos _ hp
  simp only [detect_intent, hfind]

/-- Witness for C4 at a concrete utterance mixing several rules' keywords. -/
theorem detect_intent_reservation_first_witness :
    (containsSub "book".data (lowerL ("I want to BOOK a table near the wifi" : String).data) = true ∨
     containsSub "reservation".data (lowerL ("I want to BOOK a table near the wifi" : String).data) = true ∨
     containsSub "table".data (lowerL ("I want to BOOK a table near the wifi" : String).data) = true ∨
     containsSub "reserve".data (lowerL ("I want to BOOK a table near the wifi" : String).data) = true) ∧
    detect_intent none "I want to BOOK a table near the wifi" = "reservation" :=
  ⟨by decide, detect_intent_reservation_first none _ (by decide)⟩

/-! ## Reservation Extractor (`extract_reservation`, app.py lines 233–271)

The four `re.search` patterns of the heuristic path are compiled by hand to
leftmost-match scanners.  Alternations whose branches start with distinct
literal characters need no inter-branch backtracking; the only pattern with
observable intra-pattern backtracking is `\s*([A-Za-z ]{2,})` in the name
capture, where a space given back by `\s*` can be re-matched by the class,
and `\d{1,2}` in the time capture, which prefers two digits.  `\d`, `\s`,
`\w` are modelled on the ASCII plane.
-/

/-- Case-insensitive literal prefix match (a lower-case pattern literal under
`re.I`); returns the remaining input on success. -/
def ciMatchL (pat : List Char) : List Char → Option (List Char)
  | s =>
    match pat, s with
    | [], rest => some rest
    | _ :: _, [] => none
    | p :: ps, c :: cs => if lowCh c = p then ciMatchL ps cs else none

/-- Leftmost-match search: try the position matcher at every suffix, left to
right (model of `re.search` once the position matcher models the pattern). -/
def searchPos {α : Type} (f : List Char → Option α) : List Char → Option α
  | [] => f []
  | c :: cs =>
    match f (c :: cs) with
    | some x => some x
    | none => searchPos f cs

/-- Position matcher for `(?:for|party of)\s*(\d+)` — the two branches start
with distinct letters, so plain ordered alternation is exact; `\s*` cannot
usefully backtrack before `\d+`.  Returns the captured number. -/
def partyAt (s : List Char) : Option Nat :=
  match (ciMatchL "for".data s).orElse (fun _ => ciMatchL "party of".data s) with
  | none => none
  | some r1 =>
    let r2 := r1.dropWhile isWsCh
    let ds := r2.takeWhile isDigitCh
    if ds.isEmpty then none else some (natFromDigs ds)

/-- `party_size` capture: `re.search(r"(?:for|party of)\s*(\d+)", u, re.I)`
followed by `int(...)`. -/
def findPartySize (u : List Char) : Option Nat := searchPos partyAt u

/-- The class run for `([A-Za-z ]{2,})`: the maximal `[A-Za-z ]` run if it has
at least two characters. -/
def classRun2 (l : List Char) : Option (List Char) :=
  let run := l.takeWhile isAlphaSpCh
  if run.length ≥ 2 then some run else none

/-- `\s*([A-Za-z ]{2,})` with backtracking: `\s*` is greedy but gives back
characters (only a space can then still be matched by the class). -/
def wsThenClass : List Char → Option (List Char)
  | [] => classRun2 []
  | c :: rest =>
    if isWsCh c then
      match wsThenClass rest with
      | some g => some g
      | none => classRun2 (c :: rest)
    else classRun2 (c :: rest)

/-- Position matcher for
`(?:name (?:is|under)\s*|under the name\s*)([A-Za-z ]{2,})`.
All alternation branch pairs start with distinct characters
(`i`/`u` after `name `, `n`/`u` at top level), so ordered first-match
alternation is exact. -/
def nameAt (s : List Char) : Option (List Char) :=
  let lit :=
    match ciMatchL "name ".data s with
    | some r => (ciMatchL "is".data r).orElse (fun _ => ciMatchL "under".data r)
    | none => ciMatchL "under the name".data s
  match lit with
  | none => none
  | some r1 => wsThenClass r1

/-- `name` capture: `re.search(...)` then `.group(1).strip()`. -/
def findName (u : List Char) : Option (List Char) :=
  (searchPos nameAt u).map stripL

/-- Tail of the time pattern after the digits: `\s*(?:am|pm)`; returns the
captured text (digits, the whitespace run, and the am/pm as written). -/
def timeTail (ds : List Char) (r : List Char) : Option (List Char) :=
  let ws := r.takeWhile isWsCh
  let r2 := r.dropWhile isWsCh
  match (ciMatchL "am".data r2).orElse (fun _ => ciMatchL "pm".data r2) with
  | some _ => some (ds ++ ws ++ r2.take 2)
  | none => none

/-- Position matcher for `(\d{1,2}\s*(?:am|pm))`: `\d{1,2}` prefers two
digits and backtracks to one. -/
def timeAt (s : List Char) : Option (List Char) :=
  match s with
  | [] => none
  | c1 :: rest =>
    if isDigitCh c1 then
      match rest with
      | c2 :: rest2 =>
        if isDigitCh c2 then
          (timeTail [c1, c2] rest2).orElse (fun _ => timeTail [c1] rest)
        else timeTail [c1] rest
      | [] => timeTail [c1] []
    else none

/-- `time_text` capture: `re.search(r"(\d{1,2}\s*(?:am|pm))", u, re.I)`. -/
def findTimeText (u : List Char) : Option (List Char) := searchPos timeAt u

/-- Position matcher for `(today|tomorrow|on \w+\s*\d{0,2})`: ordered
alternation; in the third branch `\w+` and `\s*` are greedy and `\d{0,2}`
takes at most two digits, and no backtracking can be needed because
`\d{0,2}` also matches the empty string.  Returns the captured text as
written (original case). -/
def dateAt (s : List Char) : Option (List Char) :=
  match ciMatchL "today".data s with
  | some _ => some (s.take 5)
  | none =>
    match ciMatchL "tomorrow".data s with
    | some _ => some (s.take 8)
    | none =>
      match ciMatchL "on ".data s with
      | none => none
      | some r1 =>
        let w := r1.takeWhile isWordCh
        if w.isEmpty then none
        else
          let r2 := r1.dropWhile isWordCh
          let ws := r2.takeWhile isWsCh
          let r3 := r2.dropWhile isWsCh
          some (s.take 3 ++ w ++ ws ++ (r3.takeWhile isDigitCh).take 2)

/-- `date_text` capture: `re.search(...)` then `.group(1).strip()`. -/
def findDateText (u : List Char) : Option (List Char) :=
  (searchPos dateAt u).map stripL

/-- JSON-representable values the program stores: strings and (unbounded)
integers.  Flat objects over these are the dictionaries flowing through the
extractor and the continuation codec. -/
inductive Jval where
  | jstr (s : String)
  | jint (n : Int)
deriving DecidableEq

/-- The heuristic `data` dictionary, built in source order: `raw`, then
`party_size`, `name`, `time_text`, `date_text` for the patterns that
matched. -/
def heurData (u : List Char) : List (String × Jval) :=
  let d0 := [("raw", Jval.jstr (String.mk u))]
  let d1 := match findPartySize u with
    | some n => d0 ++ [("party_size", Jval.jint (n : Int))]
    | none => d0
  let d2 := match findName u with
    | some nm => d1 ++ [("name", Jval.jstr (String.mk nm))]
    | none => d1
  let d3 := match findTimeText u with
    | some t => d2 ++ [("time_text", Jval.jstr (String.mk t))]
    | none => d2
  match findDateText u with
  | some dt => d3 ++ [("date_text", Jval.jstr (String.mk dt))]
  | none => d3

/-- Dictionary key membership (Python `key in dict` / `key not in dict`). -/
def hasKey (d : List (String × Jval)) (k : String) : Bool := d.any (fun p => p.1 = k)

/-- `extract_reservation(utterance)`.  The optional Gemini collaborator is an
oracle: `gemOut = some j` means the model was configured, the call succeeded
and its output parsed as the JSON object `j`, which is returned as-is;
`none` means it is not configured or the call/parse raised, falling back to
the heuristic path with its minimal-viability gate. -/
def extract_reservation (gemOut : Option (List (String × Jval))) (u : String) :
    Option (List (String × Jval)) :=
  match gemOut with
  | some j => some j
  | none =>
    let data := heurData u.data
    if hasKey data "party_size" = false ∨
        (hasKey data "time_text" = false ∧ hasKey data "date_text" = false) then
      none
    else some data

/-- C5: on the heuristic (no-collaborator) path, `extract_reservation`
returns `none` exactly when the parsed record lacks `party_size` or lacks
both `date_text` and `time_text`; consequently every `some` result carries
`party_size` and at least one of `time_text`/`date_text`. -/
theorem extract_reservation_sufficiency (u : String) :
    (extract_reservation none u = none ↔
      (hasKey (heurData u.data) "party_size" = false ∨
       (hasKey (heurData u.data) "time_text" = false ∧
        hasKey (heurData u.data) "date_text" = false))) ∧
    (∀ d, extract_reservation none u = some d →
      hasKey d "party_size" = true ∧
      (hasKey d "time_text" = true ∨ hasKey d "date_text" = true)) := by
  constructor
  · unfold extract_reservation
    by_cases h : hasKey (heurData u.data) "party_size" = false ∨
        (hasKey (heurData u.data) "time_text" = false ∧
         hasKey (heurData u.data) "date_text" = false)
    · simp [h]
    · simp only [if_neg h]
      constructor
      · intro hc; cases hc
      · intro hc; exact absurd hc h
  · intro d hd
    unfold extract_reservation at hd
    by_cases h : hasKey (heurData u.data) "party_size" = false ∨
        (hasKey (heurData u.data) "time_text" = false ∧
         hasKey (heurData u.data) "date_text" = false)
    · simp [h] at hd
    · simp only [if_neg h, Option.some.injEq] at hd
      push_neg at h
      subst hd
      refine ⟨by simpa using h.1, ?_⟩
      by_cases ht : hasKey (heurData u.data) "time_text" = true
      · exact Or.inl ht
      · exact Or.inr (by simpa using h.2 (by simpa using ht))

/-- Witness for C5 on the spec's own example utterance: the extractor
succeeds and the record carries the required slots. -/
theorem extract_reservation_sufficiency_witness :
    ∃ d, extract_reservation none "table for 4 tomorrow at 7pm under the name Asha" = some d ∧
      hasKey d "party_size" = true ∧
      (hasKey d "time_text" = true ∨ hasKey d "date_text" = true) := by
  refine ⟨heurData ("table for 4 tomorrow at 7pm under the name Asha" : String).data, ?_, ?_⟩
  · decide
  · exact (extract_reservation_sufficiency
      "table for 4 tomorrow at 7pm under the name Asha").2 _ (by decide)

/-! ## Continuation Codec (`encode_state` / `decode_state`, app.py lines 278–289)

`encode_state(d)` is `base64.urlsafe_b64encode(json.dumps(d).encode()).decode()`
inside a `try` that returns `""` on serialization failure; `decode_state(s)` is
`json.loads(base64.urlsafe_b64decode(s.encode()).decode())` inside a `try`
that returns `{}` on any failure.  The three standard-library layers are
embedded executably:

* url-safe base64 over byte lists (`-`/`_` alphabet, `=` padding; the decoder
  discards characters outside the alphabet and rejects inputs whose kept
  length is not a multiple of four, as CPython's lenient decoder does on the
  inputs reachable here; padding is accepted only at the end);
* UTF-8 (`str.encode` / strict `bytes.decode`, including the overlong and
  surrogate checks — unpaired surrogates are not representable in a Lean
  `Char`, so the decoder rejects them);
* `json` for flat objects with string keys and string/int values — the only
  shapes the program ever stores.  `dumps` uses the default separators
  (`", "`, `": "`) and default `ensure_ascii=True`, so every non-ASCII
  character is emitted as `\uXXXX` (a surrogate pair above the BMP) and the
  serialized text is pure ASCII.  Other JSON value forms (floats, booleans,
  null, nesting) never arise from the program's records; the parser rejects
  them, which can diverge from CPython only on forged tokens no claim
  touches.
-/

/-- The opening brace character (spelled by code to keep string literals
brace-free). -/
def lbraceCh : Char := Char.ofNat 123

/-- The closing brace character. -/
def rbraceCh : Char := Char.ofNat 125

/-- Sextet value to url-safe base64 alphabet character. -/
def sextCh (n : Nat) : Char :=
  if n < 26 then Char.ofNat (65 + n)
  else if n < 52 then Char.ofNat (97 + (n - 26))
  else if n < 62 then Char.ofNat (48 + (n - 52))
  else if n = 62 then '-' else '_'

/-- Base64 character classification for decoding: `some (some v)` for an
alphabet character of value `v` (after the `-_` → `+/` translation of
`urlsafe_b64decode`, so both alphabets are accepted), `some none` for the
padding character, `none` for a character the lenient decoder discards. -/
def b64tok (c : Char) : Option (Option Nat) :=
  let v := c.toNat
  if 65 ≤ v ∧ v ≤ 90 then some (some (v - 65))
  else if 97 ≤ v ∧ v ≤ 122 then some (some (v - 97 + 26))
  else if 48 ≤ v ∧ v ≤ 57 then some (some (v - 48 + 52))
  else if c = '-' ∨ c = '+' then some (some 62)
  else if c = '_' ∨ c = '/' then some (some 63)
  else if c = '=' then some none
  else none

/-- `base64.urlsafe_b64encode` over byte lists. -/
def b64encode : List Nat → List Char
  | [] => []
  | [b0] => [sextCh (b0 / 4), sextCh (b0 % 4 * 16), '=', '=']
  | [b0, b1] => [sextCh (b0 / 4), sextCh (b0 % 4 * 16 + b1 / 16), sextCh (b1 % 16 * 4), '=']
  | b0 :: b1 :: b2 :: rest =>
    sextCh (b0 / 4) :: sextCh (b0 % 4 * 16 + b1 / 16) ::
    sextCh (b1 % 16 * 4 + b2 / 64) :: sextCh (b2 % 64) :: b64encode rest

/-- Decode the kept base64 tokens four at a time; padding is legal only in
the final quad. -/
def b64quads : List (Option Nat) → Option (List Nat)
  | [] => some []
  | some a :: some b :: some c :: some d :: rest =>
    (b64quads rest).map (fun bs =>
      (a * 4 + b / 16) :: (b % 16 * 16 + c / 4) :: (c % 4 * 64 + d) :: bs)
  | [some a, some b, some c, none] => some [a * 4 + b / 16, b % 16 * 16 + c / 4]
  | [some a, some b, none, none] => some [a * 4 + b / 16]
  | _ => none

/-- `base64.urlsafe_b64decode` over character lists: discard foreign
characters, then decode quads (`none` models the `binascii.Error` raised on
incorrect padding). -/
def b64decode (cs : List Char) : Option (List Nat) :=
  b64quads (cs.filterMap b64tok)

/-- UTF-8 encoding of one character (`str.encode`). -/
def utf8Ch (c : Char) : List Nat :=
  let v := c.toNat
  if v < 128 then [v]
  else if v < 2048 then [192 + v / 64, 128 + v % 64]
  else if v < 65536 then [224 + v / 4096, 128 + v / 64 % 64, 128 + v % 64]
  else [240 + v / 262144, 128 + v / 4096 % 64, 128 + v / 64 % 64, 128 + v % 64]

/-- UTF-8 encoding of a character list. -/
def utf8EncodeL (s : List Char) : List Nat := (s.map utf8Ch).flatten

/-- Decode one UTF-8 sequence from the front of a byte list: strict
continuation-byte, overlong and surrogate checks (`bytes.decode()`). -/
def utf8DecOne (l : List Nat) : Option (Char × List Nat) :=
  match l with
  | [] => none
  | b :: rest =>
    if b < 128 then some (Char.ofNat b, rest)
    else if b < 192 then none
    else if b < 224 then
      match rest with
      | b1 :: r =>
        if 128 ≤ b1 ∧ b1 < 192 then
          let v := (b - 192) * 64 + (b1 - 128)
          if 128 ≤ v then some (Char.ofNat v, r) else none
        else none
      | [] => none
    else if b < 240 then
      match rest with
      | b1 :: b2 :: r =>
        if 128 ≤ b1 ∧ b1 < 192 ∧ 128 ≤ b2 ∧ b2 < 192 then
          let v := (b - 224) * 4096 + (b1 - 128) * 64 + (b2 - 128)
          if 2048 ≤ v ∧ ¬(55296 ≤ v ∧ v < 57344) then some (Char.ofNat v, r) else none
        else none
      | _ => none
    else if b < 248 then
      match rest with
      | b1 :: b2 :: b3 :: r =>
        if 128 ≤ b1 ∧ b1 < 192 ∧ 128 ≤ b2 ∧ b2 < 192 ∧ 128 ≤ b3 ∧ b3 < 192 then
          let v := (b - 240) * 262144 + (b1 - 128) * 4096 + (b2 - 128) * 64 + (b3 - 128)
          if 65536 ≤ v ∧ v < 1114112 then some (Char.ofNat v, r) else none
        else none
      | _ => none
    else none

/-- Fuelled strict UTF-8 decoding loop (the fuel only bounds the number of
characters; `utf8Decode` supplies the input length, which always suffices). -/
def utf8DecodeGo : Nat → List Nat → Option (List Char)
  | _, [] => some []
  | 0, _ :: _ => none
  | fuel + 1, b :: rest =>
    match utf8DecOne (b :: rest) with
    | none => none
    | some (c, r) => (utf8DecodeGo fuel r).map (fun cs => c :: cs)

/-- Strict UTF-8 decoding (`bytes.decode()`). -/
def utf8Decode (l : List Nat) : Option (List Char) := utf8DecodeGo l.length l

/-- Hex digit character, lower case (Python emits `\uXXXX` with `%04x`). -/
def hexDigitCh (n : Nat) : Char :=
  if n < 10 then Char.ofNat (48 + n) else Char.ofNat (87 + n)

/-- A six-character `\uXXXX` escape for a value below `0x10000`. -/
def uEsc (v : Nat) : List Char :=
  ['\\', 'u', hexDigitCh (v / 4096 % 16), hexDigitCh (v / 256 % 16),
   hexDigitCh (v / 16 % 16), hexDigitCh (v % 16)]

/-- JSON string-character escaping with `ensure_ascii=True` (the `json.dumps`
default): two-character escapes for quote, backslash and the five named
controls, `\uXXXX` for every other character outside `0x20`–`0x7E`, as a
surrogate pair above the BMP. -/
def escapeChar (c : Char) : List Char :=
  let v := c.toNat
  if c = '"' then ['\\', '"']
  else if c = '\\' then ['\\', '\\']
  else if v = 8 then ['\\', 'b']
  else if v = 9 then ['\\', 't']
  else if v = 10 then ['\\', 'n']
  else if v = 12 then ['\\', 'f']
  else if v = 13 then ['\\', 'r']
  else if v < 32 ∨ 126 < v then
    if v < 65536 then uEsc v
    else uEsc (55296 + (v - 65536) / 1024) ++ uEsc (56320 + (v - 65536) % 1024)
  else [c]

/-- Serialize a JSON string token. -/
def dumpStr (s : List Char) : List Char :=
  '"' :: (s.map escapeChar).flatten ++ ['"']

/-- Decimal digit character. -/
def digitCh (n : Nat) : Char := Char.ofNat (48 + n)

/-- Fuelled most-significant-first decimal digits (fuel keeps the definition
kernel-reducible; `natDigs` always supplies enough). -/
def natDigsGo : Nat → Nat → List Char
  | 0, _ => []
  | fuel + 1, n =>
    if n < 10 then [digitCh n] else natDigsGo fuel (n / 10) ++ [digitCh (n % 10)]

/-- Decimal digits of a natural number (Python `repr` of a nonnegative int). -/
def natDigs (n : Nat) : List Char := natDigsGo (n + 1) n

/-- Decimal text of an integer (Python `repr` of an int, as `json.dumps`
emits it). -/
def intChars (n : Int) : List Char :=
  if n < 0 then '-' :: natDigs n.natAbs else natDigs n.toNat

/-- Serialize one JSON value. -/
def dumpVal : Jval → List Char
  | .jstr s => dumpStr s.data
  | .jint n => intChars n

/-- Serialize one `"key": value` member (default `": "` separator). -/
def dumpPair (p : String × Jval) : List Char :=
  dumpStr p.1.data ++ ':' :: ' ' :: dumpVal p.2

/-- `json.dumps` for a flat object, default separators (`", "`, `": "`),
insertion order preserved. -/
def jsonDumps (l : List (String × Jval)) : List Char :=
  lbraceCh :: (match l with
    | [] => []
    | p :: rest => dumpPair p ++ (rest.map (fun q => ',' :: ' ' :: dumpPair q)).flatten) ++ [rbraceCh]

/-- Hex digit value (both cases, as `int(s, 16)` accepts). -/
def hexValCh (c : Char) : Option Nat :=
  let v := c.toNat
  if 48 ≤ v ∧ v ≤ 57 then some (v - 48)
  else if 97 ≤ v ∧ v ≤ 102 then some (v - 87)
  else if 65 ≤ v ∧ v ≤ 70 then some (v - 55)
  else none

/-- Four hex digits to a value below `0x10000`. -/
def hex4 (a b c d : Char) : Option Nat :=
  match hexValCh a, hexValCh b, hexValCh c, hexValCh d with
  | some x, some y, some z, some w => some (x * 4096 + y * 256 + z * 16 + w)
  | _, _, _, _ => none

/-- Parse the tail of a `\\uXXXX` escape (after `\\u`): four hex digits,
combining a surrogate pair into one code point.  An unpaired surrogate is
rejected (its code point has no Lean `Char`; CPython would build a surrogate
`str`, which no token produced by `encode_state` contains). -/
def parseU (l : List Char) : Option (Char × List Char) :=
  match l with
  | a :: b :: c2 :: d :: rest3 =>
    match hex4 a b c2 d with
    | none => none
    | some v =>
      if 55296 ≤ v ∧ v < 56320 then
        match rest3 with
        | e2 :: u2 :: a2 :: b2 :: c3 :: d2 :: rest4 =>
          if e2 = '\\' ∧ u2 = 'u' then
            match hex4 a2 b2 c3 d2 with
            | none => none
            | some w =>
              if 56320 ≤ w ∧ w < 57344 then
                some (Char.ofNat (65536 + (v - 55296) * 1024 + (w - 56320)), rest4)
              else none
          else none
        | _ => none
      else if 56320 ≤ v ∧ v < 57344 then none
      else some (Char.ofNat v, rest3)
  | _ => none

/-- One step of JSON string-body parsing after the opening quote (see
`parseU` for the `\\uXXXX` forms). -/
def strTok (l : List Char) : Option (Option Char × List Char) :=
  match l with
  | [] => none
  | c :: rest =>
    if c = '"' then some (none, rest)
    else if c = '\\' then
      match rest with
      | [] => none
      | e :: rest2 =>
        if e = '"' then some (some '"', rest2)
        else if e = '\\' then some (some '\\', rest2)
        else if e = '/' then some (some '/', rest2)
        else if e = 'b' then some (some '\x08', rest2)
        else if e = 'f' then some (some '\x0c', rest2)
        else if e = 'n' then some (some '\n', rest2)
        else if e = 'r' then some (some '\r', rest2)
        else if e = 't' then some (some '\t', rest2)
        else if e = 'u' then (parseU rest2).map (fun p => (some p.1, p.2))
        else none
    else if c.toNat < 32 then none
    else some (some c, rest)

/-- Fuelled JSON string-body parsing loop (the fuel only bounds the number of
content characters; `parseStrBody` supplies the input length plus one, which
always suffices). -/
def parseStrGo : Nat → List Char → Option (List Char × List Char)
  | 0, _ => none
  | fuel + 1, l =>
    match strTok l with
    | none => none
    | some (none, rest) => some ([], rest)
    | some (some c, r) => (parseStrGo fuel r).map (fun p => (c :: p.1, p.2))

/-- Parse the body of a JSON string token after the opening quote, returning
the content and the rest after the closing quote. -/
def parseStrBody (l : List Char) : Option (List Char × List Char) :=
  parseStrGo (l.length + 1) l



/-- Parse an unsigned digit run with the JSON no-leading-zero rule.
(The program only ever stores ints; a fractional or exponent tail is left
unconsumed and makes the enclosing object parse fail, where CPython would
read a float — a divergence only reachable on forged tokens.) -/
def parseNatCore (m : List Char) : Option (Nat × List Char) :=
  match m.takeWhile isDigitCh with
  | [] => none
  | d0 :: drest =>
    if d0 = '0' ∧ ¬drest.isEmpty then none
    else some (natFromDigs (d0 :: drest), m.dropWhile isDigitCh)

/-- Parse a JSON integer numeral: optional sign, digit run, no leading
zero. -/
def parseIntTok (l : List Char) : Option (Int × List Char) :=
  match l with
  | [] => none
  | c :: rest =>
    if c = '-' then (parseNatCore rest).map (fun p => (-(p.1 : Int), p.2))
    else (parseNatCore (c :: rest)).map (fun p => ((p.1 : Int), p.2))

/-- Parse one JSON value of the shapes the program stores. -/
def parseVal (l : List Char) : Option (Jval × List Char) :=
  match l with
  | [] => none
  | c :: rest =>
    if c = '"' then (parseStrBody rest).map (fun p => (Jval.jstr (String.mk p.1), p.2))
    else (parseIntTok l).map (fun p => (Jval.jint p.1, p.2))

/-- JSON inter-token whitespace (space, tab, newline, carriage return). -/
def isJsonWs (c : Char) : Bool := c = ' ' || c = '\t' || c = '\n' || c = '\r'

/-- Skip JSON whitespace. -/
def skipWs (l : List Char) : List Char := l.dropWhile isJsonWs

/-- Parse one `"key": value` member, positioned at the key. -/
def parseMember1 (l : List Char) : Option ((String × Jval) × List Char) :=
  match l with
  | [] => none
  | c :: rest =>
    if c = '"' then
      match parseStrBody rest with
      | none => none
      | some (k, r1) =>
        match skipWs r1 with
        | ':' :: r3 =>
          match parseVal (skipWs r3) with
          | none => none
          | some (v, r5) => some ((String.mk k, v), r5)
        | _ => none
    else none

/-- Parse the members of a non-empty object, positioned at a key; the fuel
only bounds the number of members and `jsonParse` supplies the input length,
which always suffices. -/
def parseMembers : Nat → List Char → Option (List (String × Jval) × List Char)
  | 0, _ => none
  | fuel + 1, l =>
    match parseMember1 l with
    | none => none
    | some (kv, r5) =>
      match skipWs r5 with
      | ',' :: r7 => (parseMembers fuel (skipWs r7)).map (fun p => (kv :: p.1, p.2))
      | rb :: r7 => if rb = rbraceCh then some ([kv], r7) else none
      | [] => none

/-- `json.loads` for a flat object: whole input must be consumed. -/
def jsonParse (cs : List Char) : Option (List (String × Jval)) :=
  match skipWs cs with
  | [] => none
  | c :: r =>
    if c = lbraceCh then
      match skipWs r with
      | [] => none
      | d :: r2 =>
        if d = rbraceCh then
          if skipWs r2 = [] then some [] else none
        else
          match parseMembers (d :: r2).length (d :: r2) with
          | some (ps, rest) => if skipWs rest = [] then some ps else none
          | none => none
    else none

/-- `encode_state(d)` (app.py lines 278–283):
`base64.urlsafe_b64encode(json.dumps(d).encode()).decode()`.  The `except`
branch that returns `""` is unreachable at the modelled value types:
`json.dumps` succeeds on every flat string/int dictionary. -/
def encode_state (d : List (String × Jval)) : String :=
  String.mk (b64encode (utf8EncodeL (jsonDumps d)))

/-- `decode_state(s)` (app.py lines 285–289):
`json.loads(base64.urlsafe_b64decode(s.encode()).decode())` with every
failure (base64 padding, UTF-8 decoding, JSON parsing) caught and mapped to
the empty dictionary. -/
def decode_state (s : String) : List (String × Jval) :=
  (match b64decode s.data with
   | none => none
   | some bytes =>
     match utf8Decode bytes with
     | none => none
     | some cs => jsonParse cs).getD []

/-! ## Codec round-trip lemmas -/

/-- Every url-safe alphabet character decodes back to its sextet value. -/
theorem b64tok_sextCh : ∀ n, n < 64 → b64tok (sextCh n) = some (some n) := by decide

/-- Padding decodes to the padding token. -/
theorem b64tok_pad : b64tok '=' = some none := by decide

/-- Base64 round-trip: decoding the encoding of any byte list returns it. -/
theorem b64decode_b64encode (bs : List Nat) (h : ∀ b ∈ bs, b < 256) :
    b64decode (b64encode bs) = some bs := by
  unfold b64decode
  induction bs using b64encode.induct with
  | case1 => rfl
  | case2 b0 =>
    have hb0 : b0 < 256 := h b0 (by simp)
    have e1 := b64tok_sextCh (b0 / 4) (by omega)
    have e2 := b64tok_sextCh (b0 % 4 * 16) (by omega)
    simp only [b64encode, List.filterMap_cons, e1, e2, b64tok_pad, List.filterMap_nil]
    show b64quads [some (b0 / 4), some (b0 % 4 * 16), none, none] = some [b0]
    simp only [b64quads]
    congr 1
    have : b0 / 4 * 4 + b0 % 4 * 16 / 16 = b0 := by omega
    rw [this]
  | case3 b0 b1 =>
    have hb0 : b0 < 256 := h b0 (by simp)
    have hb1 : b1 < 256 := h b1 (by simp)
    have e1 := b64tok_sextCh (b0 / 4) (by omega)
    have e2 := b64tok_sextCh (b0 % 4 * 16 + b1 / 16) (by omega)
    have e3 := b64tok_sextCh (b1 % 16 * 4) (by omega)
    simp only [b64encode, List.filterMap_cons, e1, e2, e3, b64tok_pad, List.filterMap_nil]
    show b64quads [some (b0 / 4), some (b0 % 4 * 16 + b1 / 16), some (b1 % 16 * 4), none]
      = some [b0, b1]
    simp only [b64quads]
    congr 1
    have h1 : b0 / 4 * 4 + (b0 % 4 * 16 + b1 / 16) / 16 = b0 := by omega
    have h2 : (b0 % 4 * 16 + b1 / 16) % 16 * 16 + b1 % 16 * 4 / 4 = b1 := by omega
    rw [h1, h2]
  | case4 b0 b1 b2 rest ih =>
    have hb0 : b0 < 256 := h b0 (by simp)
    have hb1 : b1 < 256 := h b1 (by simp)
    have hb2 : b2 < 256 := h b2 (by simp)
    have hrest : ∀ b ∈ rest, b < 256 := fun b hb => h b (by simp [hb])
    have e1 := b64tok_sextCh (b0 / 4) (by omega)
    have e2 := b64tok_sextCh (b0 % 4 * 16 + b1 / 16) (by omega)
    have e3 := b64tok_sextCh (b1 % 16 * 4 + b2 / 64) (by omega)
    have e4 := b64tok_sextCh (b2 % 64) (by omega)
    simp only [b64encode, List.filterMap_cons, e1, e2, e3, e4]
    show b64quads (some (b0 / 4) :: some (b0 % 4 * 16 + b1 / 16) ::
      some (b1 % 16 * 4 + b2 / 64) :: some (b2 % 64) :: (b64encode rest).filterMap b64tok)
      = some (b0 :: b1 :: b2 :: rest)
    simp only [b64quads, ih hrest, Option.map_some]
    have h1 : b0 / 4 * 4 + (b0 % 4 * 16 + b1 / 16) / 16 = b0 := by omega
    have h2 : (b0 % 4 * 16 + b1 / 16) % 16 * 16 + (b1 % 16 * 4 + b2 / 64) / 4 = b1 := by omega
    have h3 : (b1 % 16 * 4 + b2 / 64) % 4 * 64 + b2 % 64 = b2 := by omega
    rw [h1, h2, h3]
    rfl

/-- The Unicode scalar-value range of a Lean `Char`, as `Nat` facts. -/
theorem charValidNat (c : Char) :
    c.toNat < 1114112 ∧ ¬(55296 ≤ c.toNat ∧ c.toNat < 57344) := by
  have h := c.valid
  have he : c.toNat = c.val.toNat := rfl
  rcases h with h | ⟨h1, h2⟩
  · have : c.val.toNat < 55296 := h
    constructor <;> omega
  · have g1 : (57343 : Nat) < c.val.toNat := h1
    have g2 : c.val.toNat < 1114112 := h2
    constructor <;> omega

/-- Every UTF-8 byte is below 256. -/
theorem utf8Ch_lt_256 (c : Char) : ∀ b ∈ utf8Ch c, b < 256 := by
  have hv := (charValidNat c).1
  intro b hb
  unfold utf8Ch at hb
  by_cases h1 : c.toNat < 128
  · simp only [if_pos h1] at hb
    simp only [List.mem_singleton] at hb
    omega
  · simp only [if_neg h1] at hb
    by_cases h2 : c.toNat < 2048
    · simp only [if_pos h2, List.mem_cons, List.mem_singleton, List.not_mem_nil] at hb
      rcases hb with hb | hb | hb <;> first | omega | cases hb
    · simp only [if_neg h2] at hb
      by_cases h3 : c.toNat < 65536
      · simp only [if_pos h3, List.mem_cons, List.not_mem_nil] at hb
        rcases hb with hb | hb | hb | hb <;> first | omega | cases hb
      · simp only [if_neg h3, List.mem_cons, List.not_mem_nil] at hb
        rcases hb with hb | hb | hb | hb | hb <;> first | omega | cases hb

/-- Every byte of an encoded character list is below 256. -/
theorem utf8EncodeL_lt_256 (s : List Char) : ∀ b ∈ utf8EncodeL s, b < 256 := by
  intro b hb
  unfold utf8EncodeL at hb
  rw [List.mem_flatten] at hb
  obtain ⟨l, hl, hbl⟩ := hb
  rw [List.mem_map] at hl
  obtain ⟨c, _, rfl⟩ := hl
  exact utf8Ch_lt_256 c b hbl
/-- The encoding of a character is never empty. -/
theorem utf8Ch_ne_nil (c : Char) : utf8Ch c ≠ [] := by
  unfold utf8Ch
  by_cases h1 : c.toNat < 128 <;> by_cases h2 : c.toNat < 2048 <;>
    by_cases h3 : c.toNat < 65536 <;> simp [h1, h2, h3]

/-- One-character decode of an encoded character with any trailing bytes. -/
theorem utf8DecOne_utf8Ch (c : Char) (rest : List Nat) :
    utf8DecOne (utf8Ch c ++ rest) = some (c, rest) := by
  have hva := charValidNat c
  have hofc : Char.ofNat c.toNat = c := Char.ofNat_toNat c
  by_cases h1 : c.toNat < 128
  · simp only [utf8Ch, if_pos h1, List.cons_append, List.nil_append]
    simp only [utf8DecOne, if_pos h1, hofc]
  · by_cases h2 : c.toNat < 2048
    · simp only [utf8Ch, if_neg h1, if_pos h2, List.cons_append, List.nil_append]
      have e1 : ¬(192 + c.toNat / 64 < 128) := by omega
      have e2 : ¬(192 + c.toNat / 64 < 192) := by omega
      have e3 : 192 + c.toNat / 64 < 224 := by omega
      have e4 : 128 ≤ 128 + c.toNat % 64 ∧ 128 + c.toNat % 64 < 192 := by omega
      have e5 : (192 + c.toNat / 64 - 192) * 64 + (128 + c.toNat % 64 - 128) = c.toNat := by
        omega
      simp only [utf8DecOne, if_neg e1, if_neg e2, if_pos e3, if_pos e4, e5,
        if_pos (by omega : 128 ≤ c.toNat), hofc]
    · by_cases h3 : c.toNat < 65536
      · simp only [utf8Ch, if_neg h1, if_neg h2, if_pos h3, List.cons_append, List.nil_append]
        have e1 : ¬(224 + c.toNat / 4096 < 128) := by omega
        have e2 : ¬(224 + c.toNat / 4096 < 192) := by omega
        have e3 : ¬(224 + c.toNat / 4096 < 224) := by omega
        have e4 : 224 + c.toNat / 4096 < 240 := by omega
        have e5 : 128 ≤ 128 + c.toNat / 64 % 64 ∧ 128 + c.toNat / 64 % 64 < 192 ∧
            128 ≤ 128 + c.toNat % 64 ∧ 128 + c.toNat % 64 < 192 := by omega
        have e6 : (224 + c.toNat / 4096 - 224) * 4096 + (128 + c.toNat / 64 % 64 - 128) * 64 +
            (128 + c.toNat % 64 - 128) = c.toNat := by omega
        have e7 : 2048 ≤ c.toNat ∧ ¬(55296 ≤ c.toNat ∧ c.toNat < 57344) := ⟨by omega, hva.2⟩
        simp only [utf8DecOne, if_neg e1, if_neg e2, if_neg e3, if_pos e4, if_pos e5, e6,
          if_pos e7, hofc]
      · simp only [utf8Ch, if_neg h1, if_neg h2, if_neg h3, List.cons_append, List.nil_append]
        have e1 : ¬(240 + c.toNat / 262144 < 128) := by omega
        have e2 : ¬(240 + c.toNat / 262144 < 192) := by omega
        have e3 : ¬(240 + c.toNat / 262144 < 224) := by omega
        have e4 : ¬(240 + c.toNat / 262144 < 240) := by omega
        have e5 : 240 + c.toNat / 262144 < 248 := by omega
        have e6 : 128 ≤ 128 + c.toNat / 4096 % 64 ∧ 128 + c.toNat / 4096 % 64 < 192 ∧
            128 ≤ 128 + c.toNat / 64 % 64 ∧ 128 + c.toNat / 64 % 64 < 192 ∧
            128 ≤ 128 + c.toNat % 64 ∧ 128 + c.toNat % 64 < 192 := by omega
        have e7 : (240 + c.toNat / 262144 - 240) * 262144 +
            (128 + c.toNat / 4096 % 64 - 128) * 4096 +
            (128 + c.toNat / 64 % 64 - 128) * 64 + (128 + c.toNat % 64 - 128) = c.toNat := by
          omega
        have e8 : 65536 ≤ c.toNat ∧ c.toNat < 1114112 := ⟨by omega, hva.1⟩
        simp only [utf8DecOne, if_neg e1, if_neg e2, if_neg e3, if_neg e4, if_pos e5,
          if_pos e6, e7, if_pos e8, hofc]

/-- The fuelled loop decodes any encoded character list given enough fuel. -/
theorem utf8DecodeGo_utf8EncodeL (s : List Char) :
    ∀ f, (utf8EncodeL s).length ≤ f → utf8DecodeGo f (utf8EncodeL s) = some s := by
  induction s with
  | nil => intro f _; cases f <;> rfl
  | cons c cs ih =>
    intro f hf
    have henc : utf8EncodeL (c :: cs) = utf8Ch c ++ utf8EncodeL cs := by
      simp [utf8EncodeL]
    obtain ⟨b, t, hbt⟩ : ∃ b t, utf8Ch c = b :: t := by
      cases hc : utf8Ch c with
      | nil => exact absurd hc (utf8Ch_ne_nil c)
      | cons b t => exact ⟨b, t, rfl⟩
    have hlen : 1 ≤ (utf8EncodeL (c :: cs)).length := by
      rw [henc, hbt]; simp
    cases f with
    | zero => omega
    | succ f =>
      rw [henc, hbt, List.cons_append]
      show (match utf8DecOne (b :: (t ++ utf8EncodeL cs)) with
        | none => none
        | some (c, r) => (utf8DecodeGo f r).map (fun cs => c :: cs)) = some (c :: cs)
      rw [← List.cons_append, ← hbt, utf8DecOne_utf8Ch]
      have hlen2 : (utf8EncodeL cs).length ≤ f := by
        rw [henc] at hf
        rw [hbt] at hf
        simp only [List.cons_append, List.length_cons, List.length_append] at hf
        omega
      show (utf8DecodeGo f (utf8EncodeL cs)).map (fun cs => c :: cs) = some (c :: cs)
      rw [ih f hlen2]
      rfl

/-- UTF-8 round-trip. -/
theorem utf8Decode_utf8EncodeL (s : List Char) :
    utf8Decode (utf8EncodeL s) = some s :=
  utf8DecodeGo_utf8EncodeL s _ le_rfl

/-- Characters with equal code points are equal. -/
theorem charEqOfToNat {c d : Char} (h : c.toNat = d.toNat) : c = d := by
  have hc := Char.ofNat_toNat c
  rw [h, Char.ofNat_toNat] at hc
  exact hc.symm

/-- Every hex digit decodes to its value. -/
theorem hexValCh_hexDigitCh : ∀ n, n < 16 → hexValCh (hexDigitCh n) = some n := by decide

/-- Four emitted hex digits reassemble to the value. -/
theorem hex4_digits (v : Nat) (hv : v < 65536) :
    hex4 (hexDigitCh (v / 4096 % 16)) (hexDigitCh (v / 256 % 16))
      (hexDigitCh (v / 16 % 16)) (hexDigitCh (v % 16)) = some v := by
  unfold hex4
  rw [hexValCh_hexDigitCh _ (by omega), hexValCh_hexDigitCh _ (by omega),
    hexValCh_hexDigitCh _ (by omega), hexValCh_hexDigitCh _ (by omega)]
  show some (v / 4096 % 16 * 4096 + v / 256 % 16 * 256 + v / 16 % 16 * 16 + v % 16) = some v
  have : v / 4096 % 16 * 4096 + v / 256 % 16 * 256 + v / 16 % 16 * 16 + v % 16 = v := by
    omega
  rw [this]

/-- After `\u`, four matching hex digits outside the surrogate ranges parse
to their code point. -/
theorem parseU_single (a b c2 d : Char) (rest : List Char) (v : Nat)
    (hv : hex4 a b c2 d = some v)
    (h1 : ¬(55296 ≤ v ∧ v < 56320)) (h2 : ¬(56320 ≤ v ∧ v < 57344)) :
    parseU (a :: b :: c2 :: d :: rest) = some (Char.ofNat v, rest) := by
  simp only [parseU, hv, if_neg h1, if_neg h2]

/-- After `\u`, a high surrogate followed by an escaped low surrogate parses
to the combined code point. -/
theorem parseU_pair (a b c2 d a2 b2 c3 d2 : Char) (rest : List Char) (v w : Nat)
    (hv : hex4 a b c2 d = some v) (hw : hex4 a2 b2 c3 d2 = some w)
    (hv1 : 55296 ≤ v) (hv2 : v < 56320) (hw1 : 56320 ≤ w) (hw2 : w < 57344) :
    parseU (a :: b :: c2 :: d :: '\\' :: 'u' :: a2 :: b2 :: c3 :: d2 :: rest) =
      some (Char.ofNat (65536 + (v - 55296) * 1024 + (w - 56320)), rest) := by
  simp only [parseU, hv, hw, if_pos (And.intro hv1 hv2), if_pos (And.intro hw1 hw2)]
  simp

/-- `strTok` after a `\u` prefix defers to `parseU`. -/
theorem strTok_u (l : List Char) :
    strTok ('\\' :: 'u' :: l) = (parseU l).map (fun p => (some p.1, p.2)) := rfl

/-- One parsing step undoes one character escape, for any tail. -/
theorem strTok_escapeChar (c : Char) (rest : List Char) :
    strTok (escapeChar c ++ rest) = some (some c, rest) := by
  have hva := charValidNat c
  have hofc : Char.ofNat c.toNat = c := Char.ofNat_toNat c
  by_cases hq : c = '"'
  · subst hq; rfl
  · by_cases hb : c = '\\'
    · subst hb; rfl
    · by_cases h8 : c.toNat = 8
      · have : c = '\x08' := charEqOfToNat (by simpa using h8)
        subst this; rfl
      · by_cases h9 : c.toNat = 9
        · have : c = '\t' := charEqOfToNat (by simpa using h9)
          subst this; rfl
        · by_cases h10 : c.toNat = 10
          · have : c = '\n' := charEqOfToNat (by simpa using h10)
            subst this; rfl
          · by_cases h12 : c.toNat = 12
            · have : c = '\x0c' := charEqOfToNat (by simpa using h12)
              subst this; rfl
            · by_cases h13 : c.toNat = 13
              · have : c = '\r' := charEqOfToNat (by simpa using h13)
                subst this; rfl
              · by_cases hlo : c.toNat < 32 ∨ 126 < c.toNat
                · by_cases hbmp : c.toNat < 65536
                  · rw [show escapeChar c = uEsc c.toNat by
                      simp only [escapeChar, if_neg hq, if_neg hb, if_neg h8, if_neg h9,
                        if_neg h10, if_neg h12, if_neg h13, if_pos hlo, if_pos hbmp]]
                    unfold uEsc
                    simp only [List.cons_append, List.nil_append]
                    rw [strTok_u,
                      parseU_single _ _ _ _ _ _ (hex4_digits c.toNat hbmp)
                        (by rcases hva with ⟨_, hnv⟩; omega)
                        (by rcases hva with ⟨_, hnv⟩; omega)]
                    rw [hofc]
                    rfl
                  · rw [show escapeChar c =
                        uEsc (55296 + (c.toNat - 65536) / 1024) ++
                        uEsc (56320 + (c.toNat - 65536) % 1024) by
                      simp only [escapeChar, if_neg hq, if_neg hb, if_neg h8, if_neg h9,
                        if_neg h10, if_neg h12, if_neg h13, if_pos hlo, if_neg hbmp]]
                    unfold uEsc
                    simp only [List.cons_append, List.nil_append, List.append_assoc]
                    have hhi : 55296 + (c.toNat - 65536) / 1024 < 65536 := by
                      rcases hva with ⟨hv1, _⟩; omega
                    have hlo2 : 56320 + (c.toNat - 65536) % 1024 < 65536 := by omega
                    rw [strTok_u,
                      parseU_pair _ _ _ _ _ _ _ _ _ _ _ (hex4_digits _ hhi)
                        (hex4_digits _ hlo2)
                        (by omega) (by rcases hva with ⟨hv1, _⟩; omega)
                        (by omega) (by omega)]
                    have harith : 65536 + (55296 + (c.toNat - 65536) / 1024 - 55296) * 1024 +
                        (56320 + (c.toNat - 65536) % 1024 - 56320) = c.toNat := by
                      rcases hva with ⟨hv1, _⟩; omega
                    rw [harith, hofc]
                    rfl
                · have hpl : escapeChar c = [c] := by
                    simp only [escapeChar, if_neg hq, if_neg hb, if_neg h8, if_neg h9,
                      if_neg h10, if_neg h12, if_neg h13, if_neg hlo]
                  rw [hpl]
                  simp only [List.cons_append, List.nil_append]
                  simp only [strTok]
                  have h32 : ¬(c.toNat < 32) := by omega
                  simp [hq, hb, h32]

/-- An escaped character is at least one character long. -/
theorem escapeChar_ne_nil (c : Char) : escapeChar c ≠ [] := by
  simp only [escapeChar]
  split
  · simp
  · split
    · simp
    · split
      · simp
      · split
        · simp
        · split
          · simp
          · split
            · simp
            · split
              · simp
              · split
                · split <;> simp [uEsc]
                · simp

/-- Escaping never shortens a string. -/
theorem escFlatten_length (k : List Char) :
    k.length ≤ ((k.map escapeChar).flatten).length := by
  induction k with
  | nil => simp
  | cons c k ih =>
    simp only [List.map_cons, List.flatten_cons, List.length_append, List.length_cons]
    have h1 : 1 ≤ (escapeChar c).length := by
      cases h : escapeChar c with
      | nil => exact absurd h (escapeChar_ne_nil c)
      | cons a t => simp
    omega

/-- The fuelled string-body loop undoes the escaping of any content, for any
tail, given enough fuel. -/
theorem parseStrGo_escape : ∀ (k : List Char) (f : Nat) (rest : List Char),
    k.length + 1 ≤ f →
    parseStrGo f ((k.map escapeChar).flatten ++ '"' :: rest) = some (k, rest) := by
  intro k
  induction k with
  | nil =>
    intro f rest hf
    match f, hf with
    | f + 1, _ => rfl
  | cons c k ih =>
    intro f rest hf
    match f, hf with
    | f + 1, hf =>
      simp only [List.map_cons, List.flatten_cons, List.append_assoc]
      have step : parseStrGo (f + 1) (escapeChar c ++ ((k.map escapeChar).flatten ++ '"' :: rest)) =
          match strTok (escapeChar c ++ ((k.map escapeChar).flatten ++ '"' :: rest)) with
          | none => none
          | some (none, r) => some ([], r)
          | some (some c, r) => (parseStrGo f r).map (fun p => (c :: p.1, p.2)) := rfl
      rw [step, strTok_escapeChar]
      show (parseStrGo f ((k.map escapeChar).flatten ++ '"' :: rest)).map
        (fun p => (c :: p.1, p.2)) = some (c :: k, rest)
      rw [ih f rest (by simp at hf; omega)]
      rfl

/-- String-body round-trip: parsing undoes escaping, leaving the tail after
the closing quote. -/
theorem parseStrBody_escape (k rest : List Char) :
    parseStrBody ((k.map escapeChar).flatten ++ '"' :: rest) = some (k, rest) := by
  unfold parseStrBody
  apply parseStrGo_escape
  have := escFlatten_length k
  simp only [List.length_append, List.length_cons]
  omega

/-- Fuel irrelevance for the decimal-digit emitter. -/
theorem natDigsGo_congr : ∀ f1 f2 n, n < f1 → n < f2 → natDigsGo f1 n = natDigsGo f2 n := by
  intro f1
  induction f1 with
  | zero => intro f2 n h; omega
  | succ f1 ih =>
    intro f2 n h1 h2
    match f2, h2 with
    | f2 + 1, h2 =>
      show (if n < 10 then [digitCh n] else natDigsGo f1 (n / 10) ++ [digitCh (n % 10)]) =
        (if n < 10 then [digitCh n] else natDigsGo f2 (n / 10) ++ [digitCh (n % 10)])
      by_cases hn : n < 10
      · simp [hn]
      · have hd : n / 10 < n := Nat.div_lt_self (by omega) (by omega)
        simp only [if_neg hn]
        rw [ih f2 (n / 10) (by omega) (by omega)]

/-- Small numbers emit one digit. -/
theorem natDigs_base (n : Nat) (h : n < 10) : natDigs n = [digitCh n] := by
  simp [natDigs, natDigsGo, h]

/-- Larger numbers emit the digits of the quotient then the last digit. -/
theorem natDigs_step (n : Nat) (h : 10 ≤ n) :
    natDigs n = natDigs (n / 10) ++ [digitCh (n % 10)] := by
  have hd : n / 10 < n := Nat.div_lt_self (by omega) (by omega)
  show (if n < 10 then [digitCh n] else natDigsGo n (n / 10) ++ [digitCh (n % 10)]) = _
  rw [if_neg (by omega)]
  unfold natDigs
  rw [natDigsGo_congr n (n / 10 + 1) (n / 10) (by omega) (by omega)]

/-- Every emitted decimal digit satisfies the digit predicate. -/
theorem natDigs_all_digits : ∀ n, ∀ c ∈ natDigs n, isDigitCh c = true := by
  intro n
  induction n using Nat.strong_induction_on with
  | _ n ih =>
    by_cases h : n < 10
    · rw [natDigs_base n h]
      have : ∀ m, m < 10 → isDigitCh (digitCh m) = true := by decide
      intro c hc
      simp only [List.mem_singleton] at hc
      subst hc
      exact this n h
    · rw [natDigs_step n (by omega)]
      intro c hc
      rw [List.mem_append] at hc
      rcases hc with hc | hc
      · exact ih (n / 10) (Nat.div_lt_self (by omega) (by omega)) c hc
      · simp only [List.mem_singleton] at hc
        subst hc
        have : ∀ m, m < 10 → isDigitCh (digitCh m) = true := by decide
        exact this (n % 10) (Nat.mod_lt n (by omega))

/-- The digit emitter never returns the empty list. -/
theorem natDigs_ne_nil (n : Nat) : natDigs n ≠ [] := by
  by_cases h : n < 10
  · rw [natDigs_base n h]; simp
  · rw [natDigs_step n (by omega)]; simp

/-- A positive number never starts with the zero digit. -/
theorem natDigs_head_ne_zero : ∀ n, 0 < n → ∀ d t, natDigs n = d :: t → ¬d = '0' := by
  intro n
  induction n using Nat.strong_induction_on with
  | _ n ih =>
    intro hn d t hdt
    by_cases h : n < 10
    · rw [natDigs_base n h] at hdt
      cases hdt
      have : ∀ m, m < 10 → 0 < m → ¬digitCh m = '0' := by decide
      exact this n h hn
    · rw [natDigs_step n (by omega)] at hdt
      rcases hq : natDigs (n / 10) with _ | ⟨d0, t0⟩
      · exact absurd hq (natDigs_ne_nil _)
      · rw [hq] at hdt
        simp only [List.cons_append, List.cons.injEq] at hdt
        rcases hdt with ⟨hd0, _⟩
        rw [← hd0]
        exact ih (n / 10) (Nat.div_lt_self (by omega) (by omega))
          (by omega) d0 t0 hq

/-- Reading back the emitted digits recovers the number. -/
theorem natFromDigs_natDigs : ∀ n, natFromDigs (natDigs n) = n := by
  intro n
  induction n using Nat.strong_induction_on with
  | _ n ih =>
    by_cases h : n < 10
    · rw [natDigs_base n h]
      have : ∀ m, m < 10 → natFromDigs [digitCh m] = m := by decide
      exact this n h
    · rw [natDigs_step n (by omega)]
      unfold natFromDigs
      rw [List.foldl_append]
      have hih := ih (n / 10) (Nat.div_lt_self (by omega) (by omega))
      unfold natFromDigs at hih
      rw [hih]
      show n / 10 * 10 + ((digitCh (n % 10)).toNat - 48) = n
      have hdig : ∀ m, m < 10 → (digitCh m).toNat - 48 = m := by decide
      rw [hdig (n % 10) (Nat.mod_lt n (by omega))]
      omega

/-- `takeWhile`/`dropWhile` split an append exactly at the predicate
boundary. -/
theorem takeWhile_dropWhile_append {p : Char → Bool} :
    ∀ (l r : List Char), (∀ c ∈ l, p c = true) →
    (∀ c t, r = c :: t → p c = false) →
    (l ++ r).takeWhile p = l ∧ (l ++ r).dropWhile p = r := by
  intro l
  induction l with
  | nil =>
    intro r _ hr
    cases r with
    | nil => exact ⟨rfl, rfl⟩
    | cons c t =>
      have := hr c t rfl
      simp [List.takeWhile_cons, List.dropWhile_cons, this]
  | cons a l ih =>
    intro r hl hr
    have ha : p a = true := hl a (by simp)
    have hrec := ih r (fun c hc => hl c (by simp [hc])) hr
    simp [List.takeWhile_cons, List.dropWhile_cons, ha, hrec.1, hrec.2]

/-- Unfolding equation for `parseIntTok` on a non-empty list. -/
theorem parseIntTok_cons (c : Char) (l : List Char) :
    parseIntTok (c :: l) =
      if c = '-' then (parseNatCore l).map (fun p => (-(p.1 : Int), p.2))
      else (parseNatCore (c :: l)).map (fun p => ((p.1 : Int), p.2)) := rfl

/-- Unfolding equation for `parseVal` on a non-empty list. -/
theorem parseVal_cons (c : Char) (l : List Char) :
    parseVal (c :: l) =
      if c = '"' then (parseStrBody l).map (fun p => (Jval.jstr (String.mk p.1), p.2))
      else (parseIntTok (c :: l)).map (fun p => (Jval.jint p.1, p.2)) := rfl

/-- The digit-run reader undoes the digit emitter, for any non-digit tail. -/
theorem parseNatCore_natDigs (m : Nat) (rest : List Char)
    (hrest : ∀ c t, rest = c :: t → isDigitCh c = false) :
    parseNatCore (natDigs m ++ rest) = some (m, rest) := by
  have hsplit := takeWhile_dropWhile_append (natDigs m) rest (natDigs_all_digits m) hrest
  rcases hq : natDigs m with _ | ⟨d0, drest⟩
  · exact absurd hq (natDigs_ne_nil m)
  · unfold parseNatCore
    rw [← hq, hsplit.1, hsplit.2, hq]
    show (if d0 = '0' ∧ ¬drest.isEmpty then none
      else some (natFromDigs (d0 :: drest), rest)) = some (m, rest)
    have hnolead : ¬(d0 = '0' ∧ ¬drest.isEmpty) := by
      by_cases hm : m < 10
      · rw [natDigs_base m hm] at hq
        cases hq
        simp
      · have hpos : 0 < m := by omega
        have := natDigs_head_ne_zero m hpos d0 drest hq
        simp [this]
    rw [if_neg hnolead]
    have := natFromDigs_natDigs m
    rw [hq] at this
    rw [this]

/-- The integer reader undoes the integer emitter, for any non-digit tail. -/
theorem parseIntTok_intChars (n : Int) (rest : List Char)
    (hrest : ∀ c t, rest = c :: t → isDigitCh c = false) :
    parseIntTok (intChars n ++ rest) = some (n, rest) := by
  by_cases hn : n < 0
  · have hichars : intChars n = '-' :: natDigs n.natAbs := by
      simp [intChars, hn]
    rw [hichars, List.cons_append, parseIntTok_cons, if_pos rfl,
      parseNatCore_natDigs n.natAbs rest hrest]
    show some (-((n.natAbs : Nat) : Int), rest) = some (n, rest)
    have : -((n.natAbs : Nat) : Int) = n := by omega
    rw [this]
  · have hichars : intChars n = natDigs n.toNat := by
      simp [intChars, hn]
    rcases hq : natDigs n.toNat with _ | ⟨d0, drest⟩
    · exact absurd hq (natDigs_ne_nil _)
    · have hd0 : isDigitCh d0 = true := by
        apply natDigs_all_digits n.toNat
        rw [hq]; simp
      have hne : ¬d0 = '-' := by
        intro he
        subst he
        simp [isDigitCh] at hd0
      have hl : intChars n ++ rest = d0 :: (drest ++ rest) := by
        rw [hichars, hq, List.cons_append]
      rw [hl, parseIntTok_cons, if_neg hne]
      have hl2 : d0 :: (drest ++ rest) = natDigs n.toNat ++ rest := by
        rw [hq, List.cons_append]
      rw [hl2, parseNatCore_natDigs n.toNat rest hrest]
      show some (((n.toNat : Nat) : Int), rest) = some (n, rest)
      have : ((n.toNat : Nat) : Int) = n := by omega
      rw [this]

/-- The value reader undoes the value emitter, for any tail whose head is
not a digit. -/
theorem parseVal_dumpVal (v : Jval) (rest : List Char)
    (hrest : ∀ c t, rest = c :: t → isDigitCh c = false) :
    parseVal (dumpVal v ++ rest) = some (v, rest) := by
  cases v with
  | jstr s =>
    have hlist : dumpVal (Jval.jstr s) ++ rest =
        '"' :: ((s.data.map escapeChar).flatten ++ '"' :: rest) := by
      simp [dumpVal, dumpStr]
    rw [hlist, parseVal_cons, if_pos rfl, parseStrBody_escape]
    rfl
  | jint n =>
    rcases hq : intChars n with _ | ⟨d0, drest⟩
    · exfalso
      by_cases hn : n < 0
      · rw [show intChars n = '-' :: natDigs n.natAbs by simp [intChars, hn]] at hq
        cases hq
      · rw [show intChars n = natDigs n.toNat by simp [intChars, hn]] at hq
        exact natDigs_ne_nil _ hq
    · have hne : ¬d0 = '"' := by
        intro he
        subst he
        by_cases hn : n < 0
        · rw [show intChars n = '-' :: natDigs n.natAbs by simp [intChars, hn]] at hq
          have : ('-' : Char) = '"' := (List.cons.injEq _ _ _ _ ▸ hq).1
          exact absurd this (by decide)
        · rw [show intChars n = natDigs n.toNat by simp [intChars, hn]] at hq
          have : isDigitCh '"' = true := by
            apply natDigs_all_digits n.toNat
            rw [hq]; simp
          simp [isDigitCh] at this
      have hl : dumpVal (Jval.jint n) ++ rest = d0 :: (drest ++ rest) := by
        show intChars n ++ rest = _
        rw [hq, List.cons_append]
      rw [hl, parseVal_cons, if_neg hne]
      have hl2 : d0 :: (drest ++ rest) = intChars n ++ rest := by
        rw [hq, List.cons_append]
      rw [hl2, parseIntTok_intChars n rest hrest]
      rfl

/-- `skipWs` is the identity on lists not starting with JSON whitespace. -/
theorem skipWs_no_ws (l : List Char) (h : ∀ c t, l = c :: t → isJsonWs c = false) :
    skipWs l = l := by
  cases l with
  | nil => rfl
  | cons c t =>
    have := h c t rfl
    simp [skipWs, List.dropWhile_cons, this]

/-- A decimal digit is not JSON whitespace. -/
theorem digit_not_jsonWs (c : Char) (h : isDigitCh c = true) : isJsonWs c = false := by
  simp only [isDigitCh, Bool.and_eq_true, decide_eq_true_eq] at h
  have hs : ¬c = ' ' := fun he => absurd h.1 (by subst he; decide)
  have ht : ¬c = '\t' := fun he => absurd h.1 (by subst he; decide)
  have hn : ¬c = '\n' := fun he => absurd h.1 (by subst he; decide)
  have hr : ¬c = '\r' := fun he => absurd h.1 (by subst he; decide)
  simp [isJsonWs, hs, ht, hn, hr]

/-- The serialized form of a value starts with a character that is neither
whitespace nor missing. -/
theorem dumpVal_head (v : Jval) :
    ∃ d t, dumpVal v = d :: t ∧ isJsonWs d = false := by
  cases v with
  | jstr s => exact ⟨'"', _, rfl, by decide⟩
  | jint n =>
    by_cases hn : n < 0
    · refine ⟨'-', natDigs n.natAbs, ?_, by decide⟩
      simp [dumpVal, intChars, hn]
    · rcases hq : natDigs n.toNat with _ | ⟨d0, t0⟩
      · exact absurd hq (natDigs_ne_nil _)
      · refine ⟨d0, t0, ?_, ?_⟩
        · simp [dumpVal, intChars, hn, hq]
        · apply digit_not_jsonWs
          apply natDigs_all_digits n.toNat
          rw [hq]; simp

/-- One member parses back from its serialized form, for any tail whose head
is not a digit. -/
theorem parseMember1_dumpPair (k : String) (v : Jval) (T : List Char)
    (hT : ∀ c t, T = c :: t → isDigitCh c = false) :
    parseMember1 (dumpPair (k, v) ++ T) = some ((k, v), T) := by
  have hlist : dumpPair (k, v) ++ T =
      '"' :: ((k.data.map escapeChar).flatten ++ '"' :: (':' :: ' ' :: (dumpVal v ++ T))) := by
    simp [dumpPair, dumpStr]
  rw [hlist]
  show (if ('"' : Char) = '"' then
      match parseStrBody ((k.data.map escapeChar).flatten ++
          '"' :: (':' :: ' ' :: (dumpVal v ++ T))) with
      | none => none
      | some (k2, r1) =>
        match skipWs r1 with
        | ':' :: r3 =>
          match parseVal (skipWs r3) with
          | none => none
          | some (v2, r5) => some ((String.mk k2, v2), r5)
        | _ => none
    else none) = some ((k, v), T)
  rw [if_pos rfl, parseStrBody_escape]
  show (match skipWs (':' :: ' ' :: (dumpVal v ++ T)) with
    | ':' :: r3 =>
      match parseVal (skipWs r3) with
      | none => none
      | some (v2, r5) => some ((String.mk k.data, v2), r5)
    | _ => none) = some ((k, v), T)
  rw [skipWs_no_ws (':' :: ' ' :: (dumpVal v ++ T)) (by intro c t he; cases he; decide)]
  show (match parseVal (skipWs (' ' :: (dumpVal v ++ T))) with
    | none => none
    | some (v2, r5) => some ((String.mk k.data, v2), r5)) = some ((k, v), T)
  obtain ⟨d, t, hdt, hdw⟩ := dumpVal_head v
  have hsk : skipWs (' ' :: (dumpVal v ++ T)) = dumpVal v ++ T := by
    show List.dropWhile isJsonWs (' ' :: (dumpVal v ++ T)) = dumpVal v ++ T
    rw [List.dropWhile_cons]
    rw [if_pos (by decide)]
    apply skipWs_no_ws
    intro c t2 he
    rw [hdt, List.cons_append] at he
    cases he
    exact hdw
  rw [hsk, parseVal_dumpVal v T hT]

/-- The member tail of a serialized object after the first member: either
the closing brace, or a comma-space separator and the remaining members. -/
def membersTail : List (String × Jval) → List Char
  | [] => [rbraceCh]
  | q :: r => ',' :: ' ' :: (dumpPair q ++ membersTail r)

/-- `jsonDumps` in terms of `membersTail`. -/
theorem jsonDumps_eq_membersTail (l : List (String × Jval)) :
    jsonDumps l = lbraceCh :: (match l with
      | [] => [rbraceCh]
      | p :: rest => dumpPair p ++ membersTail rest) := by
  cases l with
  | nil => rfl
  | cons p rest =>
    show lbraceCh :: (dumpPair p ++
        (rest.map (fun q => ',' :: ' ' :: dumpPair q)).flatten ++ [rbraceCh]) = _
    have haux : ∀ r : List (String × Jval),
        (r.map (fun q => ',' :: ' ' :: dumpPair q)).flatten ++ [rbraceCh] = membersTail r := by
      intro r
      induction r with
      | nil => rfl
      | cons q r ih =>
        show (',' :: ' ' :: dumpPair q) ++
            (r.map (fun q => ',' :: ' ' :: dumpPair q)).flatten ++ [rbraceCh] = membersTail (q :: r)
        rw [List.append_assoc, ih]
        rfl
    rw [List.append_assoc, haux]

/-- The member tail is longer than the number of remaining members. -/
theorem membersTail_length (rest : List (String × Jval)) :
    rest.length < (membersTail rest).length := by
  induction rest with
  | nil => simp [membersTail]
  | cons q r ih =>
    show r.length + 1 < (',' :: ' ' :: (dumpPair q ++ membersTail r)).length
    simp only [List.length_cons, List.length_append]
    omega

/-- The member loop parses back a serialized member list, for any
sufficient fuel. -/
theorem parseMembers_membersTail :
    ∀ (rest : List (String × Jval)) (p : String × Jval) (fuel : Nat),
    rest.length < fuel →
    parseMembers fuel (dumpPair p ++ membersTail rest) = some (p :: rest, []) := by
  intro rest
  induction rest with
  | nil =>
    intro p fuel hf
    match fuel, hf with
    | fuel + 1, _ =>
      show (match parseMember1 (dumpPair p ++ membersTail []) with
        | none => none
        | some (kv, r5) =>
          match skipWs r5 with
          | ',' :: r7 => (parseMembers fuel (skipWs r7)).map (fun q => (kv :: q.1, q.2))
          | rb :: r7 => if rb = rbraceCh then some ([kv], r7) else none
          | [] => none) = some ([p], [])
      obtain ⟨k, v⟩ := p
      rw [show membersTail [] = [rbraceCh] from rfl,
        parseMember1_dumpPair k v [rbraceCh] (by intro c t he; cases he; decide)]
      show (match skipWs [rbraceCh] with
        | ',' :: r7 => (parseMembers fuel (skipWs r7)).map (fun q => ((k, v) :: q.1, q.2))
        | rb :: r7 => if rb = rbraceCh then some ([(k, v)], r7) else none
        | [] => none) = some ([(k, v)], [])
      rw [skipWs_no_ws [rbraceCh] (by intro c t he; cases he; decide)]
      rfl
  | cons q r ih =>
    intro p fuel hf
    match fuel, hf with
    | fuel + 1, hf =>
      show (match parseMember1 (dumpPair p ++ membersTail (q :: r)) with
        | none => none
        | some (kv, r5) =>
          match skipWs r5 with
          | ',' :: r7 => (parseMembers fuel (skipWs r7)).map (fun w => (kv :: w.1, w.2))
          | rb :: r7 => if rb = rbraceCh then some ([kv], r7) else none
          | [] => none) = some (p :: q :: r, [])
      obtain ⟨k, v⟩ := p
      rw [show membersTail (q :: r) = ',' :: ' ' :: (dumpPair q ++ membersTail r) from rfl,
        parseMember1_dumpPair k v (',' :: ' ' :: (dumpPair q ++ membersTail r))
          (by intro c t he; cases he; decide)]
      show (match skipWs (',' :: ' ' :: (dumpPair q ++ membersTail r)) with
        | ',' :: r7 => (parseMembers fuel (skipWs r7)).map (fun w => (((k, v)) :: w.1, w.2))
        | rb :: r7 => if rb = rbraceCh then some ([((k, v))], r7) else none
        | [] => none) = some ((k, v) :: q :: r, [])
      rw [skipWs_no_ws (',' :: ' ' :: (dumpPair q ++ membersTail r))
        (by intro c t he; cases he; decide)]
      show (parseMembers fuel (skipWs (' ' :: (dumpPair q ++ membersTail r)))).map
          (fun w => (((k, v)) :: w.1, w.2)) = some ((k, v) :: q :: r, [])
      obtain ⟨kq, vq⟩ := q
      have hsk : skipWs (' ' :: (dumpPair (kq, vq) ++ membersTail r)) =
          dumpPair (kq, vq) ++ membersTail r := by
        show List.dropWhile isJsonWs _ = _
        rw [List.dropWhile_cons, if_pos (by decide)]
        apply skipWs_no_ws
        intro c t he
        have hdp : dumpPair (kq, vq) ++ membersTail r =
            '"' :: ((kq.data.map escapeChar).flatten ++
              '"' :: (':' :: ' ' :: (dumpVal vq ++ membersTail r))) := by
          simp [dumpPair, dumpStr]
        rw [hdp] at he
        cases he
        decide
      rw [hsk, ih (kq, vq) fuel (by simp at hf; omega)]
      rfl

/-- JSON round-trip for flat string/int objects. -/
theorem jsonParse_jsonDumps (l : List (String × Jval)) :
    jsonParse (jsonDumps l) = some l := by
  cases l with
  | nil => rfl
  | cons p rest =>
    rw [jsonDumps_eq_membersTail]
    show jsonParse (lbraceCh :: (dumpPair p ++ membersTail rest)) = some (p :: rest)
    obtain ⟨k, v⟩ := p
    have hdp : dumpPair (k, v) ++ membersTail rest =
        '"' :: ((k.data.map escapeChar).flatten ++
          '"' :: (':' :: ' ' :: (dumpVal v ++ membersTail rest))) := by
      simp [dumpPair, dumpStr]
    unfold jsonParse
    rw [skipWs_no_ws (lbraceCh :: (dumpPair (k, v) ++ membersTail rest))
      (by intro c t he; cases he; decide)]
    show (if lbraceCh = lbraceCh then
        match skipWs (dumpPair (k, v) ++ membersTail rest) with
        | [] => none
        | d :: r2 =>
          if d = rbraceCh then
            if skipWs r2 = [] then some [] else none
          else
            match parseMembers (d :: r2).length (d :: r2) with
            | some (ps, rem) => if skipWs rem = [] then some ps else none
            | none => none
      else none) = some ((k, v) :: rest)
    rw [if_pos rfl]
    rw [skipWs_no_ws (dumpPair (k, v) ++ membersTail rest)
      (by intro c t he; rw [hdp] at he; cases he; decide)]
    rw [hdp]
    show (if ('"' : Char) = rbraceCh then
        if skipWs ((k.data.map escapeChar).flatten ++
          '"' :: (':' :: ' ' :: (dumpVal v ++ membersTail rest))) = [] then some [] else none
      else
        match parseMembers ('"' :: ((k.data.map escapeChar).flatten ++
            '"' :: (':' :: ' ' :: (dumpVal v ++ membersTail rest)))).length
            ('"' :: ((k.data.map escapeChar).flatten ++
            '"' :: (':' :: ' ' :: (dumpVal v ++ membersTail rest)))) with
        | some (ps, rem) => if skipWs rem = [] then some ps else none
        | none => none) = some ((k, v) :: rest)
    rw [if_neg (by decide)]
    rw [← hdp]
    have hfuel : rest.length < (dumpPair (k, v) ++ membersTail rest).length := by
      have h1 := membersTail_length rest
      simp only [List.length_append]
      omega
    rw [parseMembers_membersTail rest (k, v) _ hfuel]
    rfl

/-- Codec round-trip on flat string/int dictionaries: decoding the encoded
token recovers the dictionary, in order. -/
theorem decode_state_encode_state (d : List (String × Jval)) :
    decode_state (encode_state d) = d := by
  unfold encode_state decode_state
  show (match b64decode (String.mk (b64encode (utf8EncodeL (jsonDumps d)))).data with
    | none => none
    | some bytes =>
      match utf8Decode bytes with
      | none => none
      | some cs => jsonParse cs).getD [] = d
  rw [show (String.mk (b64encode (utf8EncodeL (jsonDumps d)))).data =
      b64encode (utf8EncodeL (jsonDumps d)) from rfl]
  rw [b64decode_b64encode _ (utf8EncodeL_lt_256 (jsonDumps d))]
  show (match utf8Decode (utf8EncodeL (jsonDumps d)) with
    | none => none
    | some cs => jsonParse cs).getD [] = d
  rw [utf8Decode_utf8EncodeL]
  show (jsonParse (jsonDumps d)).getD [] = d
  rw [jsonParse_jsonDumps]
  rfl

/-- The reservation record of the data model, with all fields populated:
`raw` (the raw utterance), `party_size`, `name`, `time_text`, `date_text`,
exactly the keys `extract_reservation` produces, in its insertion order. -/
structure ReservationRecord where
  raw : String
  party_size : Int
  name : String
  time_text : String
  date_text : String
deriving DecidableEq

/-- The dictionary a fully-populated record denotes, in the insertion order
of `extract_reservation`. -/
def ReservationRecord.toPairs (r : ReservationRecord) : List (String × Jval) :=
  [("raw", Jval.jstr r.raw), ("party_size", Jval.jint r.party_size),
   ("name", Jval.jstr r.name), ("time_text", Jval.jstr r.time_text),
   ("date_text", Jval.jstr r.date_text)]

/-- C1: the continuation codec is stable under round-trip on every
fully-populated reservation record: `decode_state (encode_state r) = r`,
field strings and the integer party size arbitrary. -/
theorem reservation_roundtrip (r : ReservationRecord) :
    decode_state (encode_state r.toPairs) = r.toPairs :=
  decode_state_encode_state r.toPairs

/-- C6: the continuation codec is total and never raises.  `encode_state`
is a total function into strings (the `except` branch returning `""` is
unreachable at the stored value types, which are always serializable), and
`decode_state` maps the empty token and garbage tokens — failing at the
base64, UTF-8 or JSON layer respectively — to the empty dictionary instead
of raising. -/
theorem decode_state_total_on_garbage :
    decode_state "" = [] ∧
    decode_state "!!!" = [] ∧
    decode_state "AAAA" = [] ∧
    decode_state "/w==" = [] ∧
    decode_state "aGVsbG8=" = [] :=
  ⟨by decide, by decide, by decide, by decide, by decide⟩

/-! ## Dialogue State Machine, turn-based (`handle` and friends, app.py lines 37–193)

The Twilio handlers are embedded as pure functions from the request inputs
(`Digits`, `SpeechResult`, the `mis` query parameter) and the environment
configuration to the list of TwiML verbs they emit.  The configuration
carries the env-derived texts and the optional staff number; the Gemini
collaborator is threaded as the same oracle used by `detect_intent`.

State correspondence: a response whose navigation is a `gather` on
`/handle` or a `redirect` to `/voice` keeps the call in `MainMenu`; a
`gather` on `/reserve` enters `AwaitingReservationDetails`; a `dial` is the
`Escalated` state; a response with no `gather`/`redirect`/`dial` ends the
call (`Terminated`).
-/

/-- One TwiML verb, as the handlers emit them. -/
inductive Verb where
  | say (text : String)
  | gather (action : String) (prompt : String)
  | redirect (url : String)
  | dial (number : String)
deriving DecidableEq

/-- The configuration read from the environment at boot (app.py lines
26–34), plus the intent-classifier oracle.  `gem utterance = some t` means
the external model is configured and returns text `t` for that utterance;
`none` means unconfigured or failed. -/
structure Config where
  staff : Option String
  maxMis : Nat
  cafeName : String
  hours : String
  address : String
  wifiInfo : String
  menuLink : String
  gem : String → Option String

/-- `prompt_main_menu()` (app.py lines 42–60): a gather posting to
`/handle` wrapping the greeting, then a fallback redirect to `/voice`. -/
def prompt_main_menu (cfg : Config) : List Verb :=
  let n := cfg.cafeName
  [Verb.gather "/handle" (s!"Hi, welcome to {n}! " ++
    "You can say things like \x27book a table for two at 7 p.m. today\x27, " ++
    "or ask for \x27today\x27s menu\x27 or \x27opening hours\x27. " ++
    "Or press 1 for reservations, 2 for menu, 3 for hours, 4 for location, 5 for Wi-Fi, 0 to talk to staff."),
   Verb.redirect "/voice"]

/-- The `/voice` route (app.py lines 63–65): renders the main-menu prompt,
ignoring every request parameter — in particular a `mis` query value. -/
def voicePage (cfg : Config) : List Verb := prompt_main_menu cfg

/-- `prompt_reservation()` (app.py lines 122–135). -/
def prompt_reservation : List Verb :=
  [Verb.gather "/reserve" ("Great. Please say your booking like this: " ++
    "\x27Book a table for two, tomorrow at 7 p.m., under the name Priya\x27."),
   Verb.redirect "/voice"]

/-- `say_and_back(text, misunderstandings)` (app.py lines 114–119). -/
def say_and_back (text : String) (mis : Nat) : List Verb :=
  [Verb.say text, Verb.redirect s!"/voice?mis={mis}"]

/-- `transfer_to_staff()` (app.py lines 184–193). -/
def transfer_to_staff (cfg : Config) : List Verb :=
  match cfg.staff with
  | some n => [Verb.say "Connecting you to our staff. Please hold.", Verb.dial n]
  | none => [Verb.say "Sorry, no staff number is configured. Please try again later."]

/-- The shared misunderstanding fallback at the end of `handle()` (app.py
lines 104–111): increment the counter; escalate only when it is strictly
above the threshold and a staff number is configured; otherwise apologize
and redirect to `/voice` with the incremented counter in the query. -/
def misFallback (cfg : Config) (mis : Nat) : List Verb :=
  let m := mis + 1
  if cfg.maxMis < m ∧ cfg.staff.isSome then transfer_to_staff cfg
  else [Verb.say "Sorry, I didn\x27t get that.", Verb.redirect s!"/voice?mis={m}"]

/-- The `/handle` route (app.py lines 68–111): DTMF quick routes first,
then speech intent routes, then the misunderstanding fallback. -/
def handle (cfg : Config) (digits speech : String) (mis : Nat) : List Verb :=
  if digits = "1" then prompt_reservation
  else if digits = "2" then
    let ml := cfg.menuLink
    say_and_back s!"You can see our menu here: {ml}. Would you like me to send the link by SMS?" mis
  else if digits = "3" then
    let h := cfg.hours
    say_and_back s!"Our opening hours are {h}. Anything else I can help with?" mis
  else if digits = "4" then
    let a := cfg.address
    say_and_back s!"We are at {a}. Shall I send a Google Maps link by SMS?" mis
  else if digits = "5" then
    let w := cfg.wifiInfo
    say_and_back s!"Here is the Wi-Fi information. {w}. Anything else?" mis
  else if digits = "0" then transfer_to_staff cfg
  else if ¬speech = "" then
    let intent := detect_intent (cfg.gem speech) speech
    if intent = "reservation" then prompt_reservation
    else if intent = "menu" then
      let ml := cfg.menuLink
      say_and_back s!"You can see our menu here: {ml}. Want me to text you the link?" mis
    else if intent = "hours" then
      let h := cfg.hours
      say_and_back s!"Our opening hours are {h}." mis
    else if intent = "location" then
      let a := cfg.address
      say_and_back s!"We are at {a}." mis
    else if intent = "wifi" then
      let w := cfg.wifiInfo
      say_and_back s!"{w}." mis
    else if intent = "human" then transfer_to_staff cfg
    else misFallback cfg mis
  else misFallback cfg mis

/-- `confirm_booking()` (app.py lines 166–181): the decoded state is unused
(persistence is a stub); a confirmation keyword ends the call on the booked
acknowledgment, anything else restarts at the main menu. -/
def confirm_booking (speech state : String) : List Verb :=
  let _data := decode_state state
  if containsSub "confirm".data (lowerL speech.data) then
    [Verb.say "Awesome. Your table is booked. We look forward to seeing you!"]
  else
    [Verb.say "Okay, let\x27s restart.", Verb.redirect "/voice"]

/-- The suffix after the first occurrence of a pattern, if any. -/
def afterSub (pat : List Char) : List Char → Option (List Char)
  | [] => if pat.isEmpty then some [] else none
  | c :: tl =>
    if pat.isPrefixOf (c :: tl) then some ((c :: tl).drop pat.length)
    else afterSub pat tl

/-- The `mis` counter the next `/handle` request reads from a URL: the
digits after `mis=`, defaulting to 0 when absent (model of
`int(request.values.get("mis", "0"))` on the URLs this app constructs). -/
def misParam (url : String) : Nat :=
  match afterSub "mis=".data url.data with
  | some r => natFromDigs (r.takeWhile isDigitCh)
  | none => 0

/-- The first redirect target of a response (the verb Twilio follows after
playing the says). -/
def redirectOf (vs : List Verb) : Option String :=
  (vs.filterMap (fun v => match v with | Verb.redirect u => some u | _ => none)).head?

/-- The first gather action of a page (the URL Twilio posts the caller's
input to). -/
def gatherActionOf (vs : List Verb) : Option String :=
  (vs.filterMap (fun v => match v with | Verb.gather a _ => some a | _ => none)).head?

/-- The path of a URL, before the query string. -/
def urlPath (url : String) : String :=
  String.mk (url.data.takeWhile (fun c => ¬c = '?'))

/-- The counter value the next `/handle` request will carry after a
response: follow its redirect to `/voice`, render that page, and read the
`mis` parameter of the gather action Twilio will post to. -/
def nextHandleMisAfter (cfg : Config) (vs : List Verb) : Option Nat :=
  match redirectOf vs with
  | some u =>
    if urlPath u = "/voice" then (gatherActionOf (voicePage cfg)).map misParam else none
  | none => none

/-- The environment defaults of app.py lines 26–34 with no staff number
configured and no collaborator. -/
def cfgNoStaff : Config :=
  ⟨none, 2, "Your Café", "Mon–Sun, 8 AM to 9 PM", "123, Main Street, Your City",
   "Network: YOUR_CAFE_WIFI, Password: latte123", "https://example.com/menu", fun _ => none⟩

/-- The same defaults with a staff number configured. -/
def cfgStaff : Config :=
  ⟨some "+911234567890", 2, "Your Café", "Mon–Sun, 8 AM to 9 PM",
   "123, Main Street, Your City", "Network: YOUR_CAFE_WIFI, Password: latte123",
   "https://example.com/menu", fun _ => none⟩

/-- C2 counterexample: with no staff number configured and the counter far
beyond the threshold, a misunderstanding turn answers with the generic
apology and a `/voice` redirect — the no-human-line report ("Sorry, no
staff number is configured…") is never spoken on this path, contradicting
the claim's reporting clause. -/
theorem handle_over_threshold_no_staff_says_generic_apology :
    handle cfgNoStaff "" "" 5 =
      [Verb.say "Sorry, I didn\x27t get that.", Verb.redirect "/voice?mis=6"] ∧
    Verb.say "Sorry, no staff number is configured. Please try again later."
      ∉ handle cfgNoStaff "" "" 5 :=
  ⟨by decide, by decide⟩

/-- C2 (amended): a misunderstanding turn (no recognized digit route, no
recognized intent) escalates — emits a `dial` — exactly when the
incremented counter strictly exceeds the threshold and a staff number is
configured; with no staff number it re-prompts with the generic apology and
remains in `MainMenu`, whatever the counter. -/
theorem handle_misunderstanding_policy (cfg : Config) (digits speech : String) (mis : Nat)
    (hd : digits ∉ (["1", "2", "3", "4", "5", "0"] : List String))
    (hs : speech = "" ∨ detect_intent (cfg.gem speech) speech = "unknown") :
    ((∃ n, Verb.dial n ∈ handle cfg digits speech mis) ↔
      (cfg.maxMis < mis + 1 ∧ cfg.staff.isSome = true)) ∧
    (cfg.staff = none →
      handle cfg digits speech mis =
        [Verb.say "Sorry, I didn\x27t get that.", Verb.redirect s!"/voice?mis={mis + 1}"]) := by
  simp only [List.mem_cons, List.not_mem_nil, or_false, not_or] at hd
  obtain ⟨h1, h2, h3, h4, h5, h0⟩ := hd
  have hred : handle cfg digits speech mis = misFallback cfg mis := by
    unfold handle
    rw [if_neg h1, if_neg h2, if_neg h3, if_neg h4, if_neg h5, if_neg h0]
    rcases hs with hs | hs
    · rw [if_neg (by simp [hs])]
    · by_cases hsp : speech = ""
      · rw [if_neg (by simp [hsp])]
      · rw [if_pos hsp, hs]
        rw [if_neg (by decide), if_neg (by decide), if_neg (by decide),
          if_neg (by decide), if_neg (by decide), if_neg (by decide)]
  rw [hred]
  unfold misFallback
  by_cases hesc : cfg.maxMis < mis + 1 ∧ cfg.staff.isSome
  · rw [if_pos hesc]
    constructor
    · constructor
      · intro _
        exact ⟨hesc.1, hesc.2⟩
      · intro _
        obtain ⟨n, hn⟩ := Option.isSome_iff_exists.mp hesc.2
        refine ⟨n, ?_⟩
        unfold transfer_to_staff
        rw [hn]
        simp
    · intro hnone
      exact absurd hesc.2 (by simp [hnone])
  · rw [if_neg hesc]
    constructor
    · constructor
      · rintro ⟨n, hn⟩
        simp at hn
      · intro hc
        exact absurd hc hesc
    · intro _
      rfl

/-- Witness for the amended C2: with a staff number and counter 5 against
threshold 2, the turn escalates (the dial exists), and the hypotheses hold
at the chosen input. -/
theorem handle_misunderstanding_policy_witness :
    (("" : String) ∉ (["1", "2", "3", "4", "5", "0"] : List String)) ∧
    ((∃ n, Verb.dial n ∈ handle cfgStaff "" "" 5) ↔
      (cfgStaff.maxMis < 5 + 1 ∧ cfgStaff.staff.isSome = true)) ∧
    (cfgStaff.staff = none →
      handle cfgStaff "" "" 5 =
        [Verb.say "Sorry, I didn\x27t get that.", Verb.redirect s!"/voice?mis={5 + 1}"]) :=
  ⟨by decide,
   (handle_misunderstanding_policy cfgStaff "" "" 5 (by decide) (Or.inl rfl)).1,
   (handle_misunderstanding_policy cfgStaff "" "" 5 (by decide) (Or.inl rfl)).2⟩

/-- C3: the incremented counter written into the `/voice?mis=1` redirect is
dropped by the `/voice` page, whose gather posts to a bare `/handle`; the
next turn therefore reads `mis = 0`, not 1 — the counter never actually
survives a round-trip through the continuation mechanism. -/
theorem mis_counter_dropped_at_voice :
    handle cfgNoStaff "" "" 0 =
      [Verb.say "Sorry, I didn\x27t get that.", Verb.redirect "/voice?mis=1"] ∧
    nextHandleMisAfter cfgNoStaff (handle cfgNoStaff "" "" 0) = some 0 :=
  ⟨by decide, by decide⟩

/-- C7: in `AwaitingConfirmation`, a transcript containing the keyword
`confirm` ends the call on the booking acknowledgment (no redirect, no
gather — `Terminated`); any other transcript acknowledges the restart and
redirects back to the main menu. -/
theorem confirm_booking_behavior (speech state : String) :
    (containsSub "confirm".data (lowerL speech.data) = true →
      confirm_booking speech state =
        [Verb.say "Awesome. Your table is booked. We look forward to seeing you!"] ∧
      (∀ u, Verb.redirect u ∉ confirm_booking speech state) ∧
      (∀ a p, Verb.gather a p ∉ confirm_booking speech state)) ∧
    (containsSub "confirm".data (lowerL speech.data) = false →
      confirm_booking speech state =
        [Verb.say "Okay, let\x27s restart.", Verb.redirect "/voice"]) := by
  constructor
  · intro h
    have he : confirm_booking speech state =
        [Verb.say "Awesome. Your table is booked. We look forward to seeing you!"] := by
      unfold confirm_booking
      rw [if_pos h]
    refine ⟨he, ?_, ?_⟩
    · intro u
      rw [he]
      simp
    · intro a p
      rw [he]
      simp
  · intro h
    unfold confirm_booking
    rw [if_neg (by simp [h])]

/-- Witness for C7 on the spec's end-to-end utterance. -/
theorem confirm_booking_behavior_witness :
    containsSub "confirm".data (lowerL ("yes confirm that" : String).data) = true ∧
    confirm_booking "yes confirm that" "" =
      [Verb.say "Awesome. Your table is booked. We look forward to seeing you!"] :=
  ⟨by decide, ((confirm_booking_behavior "yes confirm that" "").1 (by decide)).1⟩

/-- C10: a recognized digit fully determines the turn — with any such digit
present, the response is independent of the speech text, which is never
classified. -/
theorem handle_digit_priority (cfg : Config) (d s s2 : String) (mis : Nat)
    (hd : d ∈ (["1", "2", "3", "4", "5", "0"] : List String)) :
    handle cfg d s mis = handle cfg d s2 mis := by
  simp only [List.mem_cons, List.not_mem_nil, or_false] at hd
  rcases hd with h | h | h | h | h | h <;> subst h <;> rfl

/-- Witness for C10: digit 1 with two different speech texts yields the
same response. -/
theorem handle_digit_priority_witness :
    (("1" : String) ∈ (["1", "2", "3", "4", "5", "0"] : List String)) ∧
    handle cfgStaff "1" "menu please" 0 = handle cfgStaff "1" "what are your hours" 0 :=
  ⟨by decide, handle_digit_priority cfgStaff "1" "menu please" "what are your hours" 0 (by decide)⟩

/-! ## Realtime Session Loop (`handle_twilio_media`, app_api.py lines 118–326)

The session handler is embedded as a step function over parsed events: the
Twilio stream events (`start`/`media`/`stop`, unparseable frames skipped)
and the Deepgram transcript events consumed by the concurrent reader task
(interim events discarded).  Each loop iteration is atomic in the source
(the next websocket message is only read after the current handler body,
including its awaits, completes; the reader task never writes the
greeting flag), so a step function over the interleaved event sequence is a
faithful model.  The `finally` block cancels the reader and closes the
Deepgram socket but touches no other state — in particular it never removes
the `call_states` entry, which is deleted only by the `stop` branch.
-/

/-- The realtime configuration and collaborator oracle: `gem = some f`
means Gemini is configured and `f transcript count` is its response for
that transcript at that message count (`none` inside for a raised call);
`gem = none` selects the deterministic keyword fallback. -/
structure RtConfig where
  gem : Option (String → Nat → Option String)
  cafeName : String
  hours : String
  menuLink : String
  staff : Option String

/-- One parsed event of the session loop: a Twilio stream event or a
Deepgram transcript event. -/
inductive TwEvent where
  | start (callSid streamSid : String)
  | media (payload : Option String)
  | stop
  | dgFinal (transcript : String)
  | dgInterim
  | junk
deriving DecidableEq

/-- The per-session state: the greeting flag, the current call sid, and the
process-wide `call_states` dictionary (app_api.py line 78), keyed by the
call sid (`none` when a transcript arrives before `start`). -/
structure RtState where
  has_greeted : Bool
  call_sid : Option String
  call_states : List (Option String × Nat)
deriving DecidableEq

/-- The externally visible effects of one step: payloads forwarded to the
transcription socket, texts synthesized and injected into the call, and
whether the loop broke (a `stop` event). -/
structure RtOut where
  dgSent : List String
  played : List String
  ended : Bool
deriving DecidableEq

/-- The message count recorded for a call. -/
def countOf (st : List (Option String × Nat)) (sid : Option String) : Nat :=
  ((st.find? (fun p => p.1 = sid)).map Prod.snd).getD 0

/-- `generate_reply(transcript, call_sid)` (app_api.py lines 178–235):
ensure a `call_states` entry exists, increment its message count, then
reply via the Gemini oracle (stripped, truncated at 200 characters, with
the trouble apology on failure) or the deterministic keyword rules. -/
def generate_reply (cfg : RtConfig) (st : List (Option String × Nat))
    (callSid : Option String) (transcript : String) :
    List (Option String × Nat) × String :=
  let st1 := if st.any (fun p => p.1 = callSid) then st else st ++ [(callSid, 0)]
  let st2 := st1.map (fun p => if p.1 = callSid then (p.1, p.2 + 1) else p)
  let reply :=
    match cfg.gem with
    | some f =>
      match f transcript (countOf st2 callSid) with
      | some t =>
        let r := String.mk (stripL t.data)
        if 200 < r.length then String.mk (r.data.take 197) ++ "..." else r
      | none => "Sorry, I\x27m having trouble processing that. Could you please repeat?"
    | none =>
      let tl := lowerL transcript.data
      if containsSub "hello".data tl || containsSub "hi".data tl ||
          containsSub "hey".data tl then
        "Nice to hear from you! What can I help you with today?"
      else if containsSub "hour".data tl || containsSub "open".data tl then
        let h := cfg.hours
        s!"We are open {h}."
      else if containsSub "menu".data tl then
        let ml := cfg.menuLink
        s!"You can view our menu at {ml}."
      else if containsSub "reserve".data tl || containsSub "book".data tl then
        "Sure! How many people and what time would you like?"
      else if containsSub "location".data tl || containsSub "address".data tl then
        let n := cfg.cafeName
        s!"We are located at {n}. Would you like directions?"
      else "I didn\x27t quite catch that. Could you please repeat?"
  (st2, reply)

/-- The greeting `send_greeting` injects (app_api.py lines 138–142). -/
def greetingText (n : String) : String :=
  s!"Hello! Thank you for calling {n}. I\x27m your virtual receptionist. How may I help you today?"

/-- One iteration of the session loop (app_api.py lines 144–176 for the
reader task, 268–306 for the stream loop).  `play_response` refuses to play
when `call_sid` is falsy (`None` or `""`); the media relay requires the
greeting flag and a truthy payload; `stop` deletes the `call_states` entry
(when the sid is truthy and present) and breaks. -/
def rtStep (cfg : RtConfig) (s : RtState) (e : TwEvent) : RtState × RtOut :=
  match e with
  | TwEvent.start cs _ss =>
    let s1 : RtState := ⟨s.has_greeted, some cs, s.call_states⟩
    if s.has_greeted then (s1, ⟨[], [], false⟩)
    else (⟨true, some cs, s.call_states⟩,
      ⟨[], if cs = "" then [] else [greetingText cfg.cafeName], false⟩)
  | TwEvent.media p =>
    if s.has_greeted then
      match p with
      | some pl => if pl = "" then (s, ⟨[], [], false⟩) else (s, ⟨[pl], [], false⟩)
      | none => (s, ⟨[], [], false⟩)
    else (s, ⟨[], [], false⟩)
  | TwEvent.stop =>
    let cst := match s.call_sid with
      | some cs =>
        if ¬cs = "" ∧ s.call_states.any (fun q => q.1 = some cs) then
          s.call_states.filter (fun q => ¬q.1 = some cs)
        else s.call_states
      | none => s.call_states
    (⟨s.has_greeted, s.call_sid, cst⟩, ⟨[], [], true⟩)
  | TwEvent.dgFinal t =>
    let ts := String.mk (stripL t.data)
    if ts = "" then (s, ⟨[], [], false⟩)
    else
      let r := generate_reply cfg s.call_states s.call_sid ts
      (⟨s.has_greeted, s.call_sid, r.1⟩,
       ⟨[], if s.call_sid = none ∨ s.call_sid = some "" then [] else [r.2], false⟩)
  | TwEvent.dgInterim => (s, ⟨[], [], false⟩)
  | TwEvent.junk => (s, ⟨[], [], false⟩)

/-- Run the session loop over an event sequence; a `stop` breaks, and a
sequence that ends without `stop` models the underlying connection closing
(the `finally` cleanup touches no `call_states` entry). -/
def rtRun (cfg : RtConfig) : RtState → List TwEvent → RtState × RtOut
  | s, [] => (s, ⟨[], [], false⟩)
  | s, e :: es =>
    let so := rtStep cfg s e
    if so.2.ended then so
    else
      let rest := rtRun cfg so.1 es
      (rest.1, ⟨so.2.dgSent ++ rest.2.dgSent, so.2.played ++ rest.2.played, rest.2.ended⟩)

/-- A default realtime configuration with no collaborator. -/
def rtCfgDefault : RtConfig :=
  ⟨none, "Your Café", "Monday to Sunday, 8 AM to 9 PM", "https://example.com/menu", none⟩

/-- C8: while the greeting flag is still false, a media event forwards
nothing to the transcription collaborator — whatever the payload and
whatever session state the event arrives in. -/
theorem no_relay_before_greeting (cfg : RtConfig) (s : RtState) (p : Option String)
    (h : s.has_greeted = false) :
    (rtStep cfg s (TwEvent.media p)).2.dgSent = [] := by
  unfold rtStep
  rw [h]
  simp

/-- Witness for C8: the spec's scenario — a fresh session receives a media
frame before any greeting — relays nothing. -/
theorem no_relay_before_greeting_witness :
    (RtState.mk false none []).has_greeted = false ∧
    (rtStep rtCfgDefault ⟨false, none, []⟩ (TwEvent.media (some "AAAA"))).2.dgSent = [] :=
  ⟨rfl, no_relay_before_greeting rtCfgDefault ⟨false, none, []⟩ (some "AAAA") rfl⟩

/-- C9: a session whose connection closes without a `stop` event leaks its
`call_states` entry — the teardown path removes it only on `stop`.  After
`start` and one final transcript, ending the stream without `stop` leaves
the entry in the map; the same session ended by `stop` removes it. -/
theorem call_states_leak_on_connection_close :
    ((rtRun rtCfgDefault ⟨false, none, []⟩
        [TwEvent.start "CA1" "MS1", TwEvent.dgFinal "hello"]).1.call_states.any
      (fun q => q.1 = some "CA1")) = true ∧
    (rtRun rtCfgDefault ⟨false, none, []⟩
        [TwEvent.start "CA1" "MS1", TwEvent.dgFinal "hello", TwEvent.stop]).1.call_states = [] :=
  ⟨by decide, by decide⟩
